import Mathlib

/-!
Verification of the data-transformation and metrics-derivation pipeline of the
OMERS VC reporting platform, against the Python sources under
src/backend/services (currency_conversion.py, data_transformation.py,
metrics_calculation.py) and the ORM models under src/backend/models.

Modelling conventions:
- Python Decimal values are modelled as exact rationals (ℚ).  Decimal context
  division carries 28 significant digits; none of the verified properties
  depends on that truncation, so division is modelled exactly.
- dates are modelled as an opaque day index (ℕ); uuids as ℕ.
- Python dicts that are only ever written at fresh keys are modelled as
  association lists in insertion order.
- fallible code returns Except; the mutable module state of
  currency_conversion.py (the functools.lru_cache memo table and the global
  exchange_rates dict) is threaded explicitly, together with a ghost log of
  external API invocations.
-/

namespace OmersVC

/-- Rounding of a rational to an integer with round-half-to-even tie-breaking,
the default rounding of Python's decimal context (ROUND_HALF_EVEN), which is
what both round(d, 2) and Decimal.quantize use in the sources. -/
def roundHalfEvenZ (x : ℚ) : ℤ :=
  let f : ℤ := ⌊x⌋
  let r : ℚ := x - (f : ℚ)
  if r < 1/2 then f
  else if 1/2 < r then f + 1
  else if f % 2 = 0 then f else f + 1

/-- Quantization to 2 decimal places with banker's rounding: models both
round(d, 2) in currency_conversion.py line 90 and .quantize(Decimal with two
places) in metrics_calculation.py. -/
def quantize2 (x : ℚ) : ℚ := (roundHalfEvenZ (x * 100) : ℚ) / 100

/-- Quantization to 1 decimal place with banker's rounding
(metrics_calculation.py line 206, runway months). -/
def quantize1 (x : ℚ) : ℚ := (roundHalfEvenZ (x * 10) : ℚ) / 10

/-- Currency codes (ISO 4217 strings in the source). -/
abbrev Currency := String

/-- Dates (datetime.date in the source), modelled as an opaque day index. -/
abbrev CalDate := ℕ

/-- MetricsInput ORM model (src/backend/models/metrics_input.py): one company's
self-reported figures for one fiscal quarter.  The audit columns id,
created_date, created_by, last_update_date, last_updated_by are environment
supplied and read by none of the verified services, so they are omitted. -/
structure MetricsInput where
  company_id : ℕ
  currency : Currency
  total_revenue : ℚ
  recurring_revenue : ℚ
  gross_profit : ℚ
  sales_marketing_expense : ℚ
  total_operating_expense : ℚ
  ebitda : ℚ
  net_income : ℚ
  cash_burn : ℚ
  cash_balance : ℚ
  debt_outstanding : Option ℚ
  employees : ℤ
  customers : Option ℤ
  fiscal_reporting_date : CalDate
  fiscal_reporting_quarter : ℤ
  reporting_year : ℤ
  reporting_quarter : ℤ
deriving DecidableEq

/-- MetricsCalculationService.calculate_arr (metrics_calculation.py 96-107). -/
def calculate_arr (recurring_revenue : ℚ) : ℚ :=
  recurring_revenue * 4

/-- MetricsCalculationService.calculate_percentage_of_revenue
(metrics_calculation.py 244-258): zero total revenue returns Decimal 0,
otherwise value / total_revenue * 100 quantized to two places. -/
def calculate_percentage_of_revenue (value total_revenue : ℚ) : ℚ :=
  if total_revenue = 0 then 0
  else quantize2 (value / total_revenue * 100)

/-- MetricsCalculationService.calculate_per_fte (metrics_calculation.py
260-274). -/
def calculate_per_fte (value : ℚ) (employees : ℤ) : ℚ :=
  if employees = 0 then 0
  else quantize2 (value / (employees : ℚ))

/-- MetricsCalculationService.calculate_growth_rate (metrics_calculation.py
276-290). -/
def calculate_growth_rate (current_value previous_value : ℚ) : ℚ :=
  if previous_value = 0 then 0
  else quantize2 ((current_value - previous_value) / previous_value * 100)

/-- MetricsCalculationService.calculate_monthly_cash_burn
(metrics_calculation.py 179-190). -/
def calculate_monthly_cash_burn (cash_burn : ℚ) : ℚ :=
  cash_burn / 3

/-- MetricsCalculationService.calculate_runway_months (metrics_calculation.py
192-206): zero monthly burn returns Decimal 0, otherwise one-decimal-place
quantization. -/
def calculate_runway_months (cash_balance monthly_cash_burn : ℚ) : ℚ :=
  if monthly_cash_burn = 0 then 0
  else quantize1 (cash_balance / monthly_cash_burn)

/-- Result dictionary of MetricsCalculationService.calculate_ltm_metrics
(metrics_calculation.py 232-242), with one field per dict key. -/
structure LtmMetrics where
  ltm_total_revenue : ℚ
  ltm_gross_profit : ℚ
  ltm_sales_marketing_expense : ℚ
  ltm_gross_margin : ℚ
  ltm_operating_expense : ℚ
  ltm_ebitda : ℚ
  ltm_net_income : ℚ
  ltm_ebitda_margin : ℚ
  ltm_net_income_margin : ℚ
deriving DecidableEq

/-- MetricsCalculationService.calculate_ltm_metrics (metrics_calculation.py
208-242): raises ValueError unless exactly 4 quarters are supplied, otherwise
sums the six line items across the quarters and derives the three margins. -/
def calculate_ltm_metrics (quarterly_metrics : List MetricsInput) :
    Except String LtmMetrics :=
  if quarterly_metrics.length ≠ 4 then
    .error "LTM calculations require exactly 4 quarters of data"
  else
    let ltm_total_revenue := (quarterly_metrics.map (·.total_revenue)).sum
    let ltm_gross_profit := (quarterly_metrics.map (·.gross_profit)).sum
    let ltm_sales_marketing_expense :=
      (quarterly_metrics.map (·.sales_marketing_expense)).sum
    let ltm_operating_expense :=
      (quarterly_metrics.map (·.total_operating_expense)).sum
    let ltm_ebitda := (quarterly_metrics.map (·.ebitda)).sum
    let ltm_net_income := (quarterly_metrics.map (·.net_income)).sum
    .ok
      { ltm_total_revenue := ltm_total_revenue
        ltm_gross_profit := ltm_gross_profit
        ltm_sales_marketing_expense := ltm_sales_marketing_expense
        ltm_gross_margin :=
          calculate_percentage_of_revenue ltm_gross_profit ltm_total_revenue
        ltm_operating_expense := ltm_operating_expense
        ltm_ebitda := ltm_ebitda
        ltm_net_income := ltm_net_income
        ltm_ebitda_margin :=
          calculate_percentage_of_revenue ltm_ebitda ltm_total_revenue
        ltm_net_income_margin :=
          calculate_percentage_of_revenue ltm_net_income ltm_total_revenue }

/-- ReportingMetrics ORM model (src/backend/models/reporting_metrics.py),
restricted to the columns that calculate_derived_metrics passes to the
constructor plus the nine nullable LTM columns (which the constructor call of
metrics_calculation.py 76-94 leaves unset, hence None).  The nullable analytic
columns not touched by any verified code path (enterprise_value,
employee_growth_rate, change_in_cash, revenue_growth,
ev_by_equity_raised_plus_debt, valuation_to_revenue, the four yoy columns) and
the environment-supplied audit columns (id, created_date, last_update_date,
last_updated_by) are omitted. -/
structure ReportingMetrics where
  company_id : ℕ
  currency : Currency
  arr : ℚ
  recurring_percentage_revenue : ℚ
  revenue_per_fte : ℚ
  gross_profit_per_fte : ℚ
  monthly_cash_burn : ℚ
  runway_months : ℚ
  sales_marketing_percentage_revenue : ℚ
  total_operating_percentage_revenue : ℚ
  gross_profit_margin : ℚ
  ltm_total_revenue : Option ℚ
  ltm_gross_profit : Option ℚ
  ltm_sales_marketing_expense : Option ℚ
  ltm_gross_margin : Option ℚ
  ltm_operating_expense : Option ℚ
  ltm_ebitda : Option ℚ
  ltm_net_income : Option ℚ
  ltm_ebitda_margin : Option ℚ
  ltm_net_income_margin : Option ℚ
  fiscal_reporting_date : CalDate
  fiscal_reporting_quarter : ℤ
  reporting_year : ℤ
  reporting_quarter : ℤ
  created_by : String
deriving DecidableEq

/-- Predicate of the query filter in calculate_derived_metrics
(metrics_calculation.py 39-43). -/
def inputMatches (company_id : ℕ) (reporting_year reporting_quarter : ℤ)
    (m : MetricsInput) : Bool :=
  decide (m.company_id = company_id ∧ m.reporting_year = reporting_year ∧
    m.reporting_quarter = reporting_quarter)

/-- MetricsCalculationService.calculate_derived_metrics (metrics_calculation.py
21-94).  The db session is modelled as the list of MetricsInput rows; .first()
is the first matching row.  The constructor call at lines 76-94 passes only the
single-quarter metrics, so every LTM column of the returned record is None. -/
def calculate_derived_metrics (db : List MetricsInput) (company_id : ℕ)
    (reporting_year reporting_quarter : ℤ) : Except String ReportingMetrics :=
  match db.find? (inputMatches company_id reporting_year reporting_quarter) with
  | none => .error "No input metrics found for the given company and reporting period"
  | some input_metrics =>
    let arr := calculate_arr input_metrics.recurring_revenue
    let recurring_percentage_revenue := calculate_percentage_of_revenue
      input_metrics.recurring_revenue input_metrics.total_revenue
    let revenue_per_fte := calculate_per_fte
      input_metrics.total_revenue input_metrics.employees
    let gross_profit_per_fte := calculate_per_fte
      input_metrics.gross_profit input_metrics.employees
    let monthly_cash_burn := calculate_monthly_cash_burn input_metrics.cash_burn
    let runway_months := calculate_runway_months
      input_metrics.cash_balance monthly_cash_burn
    let sales_marketing_percentage_revenue := calculate_percentage_of_revenue
      input_metrics.sales_marketing_expense input_metrics.total_revenue
    let total_operating_percentage_revenue := calculate_percentage_of_revenue
      input_metrics.total_operating_expense input_metrics.total_revenue
    let gross_profit_margin := calculate_percentage_of_revenue
      input_metrics.gross_profit input_metrics.total_revenue
    .ok
      { company_id := company_id
        currency := input_metrics.currency
        arr := arr
        recurring_percentage_revenue := recurring_percentage_revenue
        revenue_per_fte := revenue_per_fte
        gross_profit_per_fte := gross_profit_per_fte
        monthly_cash_burn := monthly_cash_burn
        runway_months := runway_months
        sales_marketing_percentage_revenue := sales_marketing_percentage_revenue
        total_operating_percentage_revenue := total_operating_percentage_revenue
        gross_profit_margin := gross_profit_margin
        ltm_total_revenue := none
        ltm_gross_profit := none
        ltm_sales_marketing_expense := none
        ltm_gross_margin := none
        ltm_operating_expense := none
        ltm_ebitda := none
        ltm_net_income := none
        ltm_ebitda_margin := none
        ltm_net_income_margin := none
        fiscal_reporting_date := input_metrics.fiscal_reporting_date
        fiscal_reporting_quarter := input_metrics.fiscal_reporting_quarter
        reporting_year := reporting_year
        reporting_quarter := reporting_quarter
        created_by := "MetricsCalculationService" }

/-- Sample quarterly input used to instantiate the universally quantified
theorems on concrete data. -/
def sampleInput : MetricsInput :=
  { company_id := 1
    currency := "USD"
    total_revenue := 1000000
    recurring_revenue := 800000
    gross_profit := 600000
    sales_marketing_expense := 200000
    total_operating_expense := 500000
    ebitda := 300000
    net_income := 250000
    cash_burn := 50000
    cash_balance := 1000000
    debt_outstanding := some 500000
    employees := 100
    customers := some 1000
    fiscal_reporting_date := 738975
    fiscal_reporting_quarter := 1
    reporting_year := 2023
    reporting_quarter := 1 }

/-- Trailing four quarters of 2023 for company 1, most recent first. -/
def ltmHistoryDb : List MetricsInput :=
  [{ sampleInput with
      reporting_quarter := 4
      fiscal_reporting_quarter := 4
      fiscal_reporting_date := 739250
      total_revenue := 1300000 },
   { sampleInput with
      reporting_quarter := 3
      fiscal_reporting_quarter := 3
      fiscal_reporting_date := 739158
      total_revenue := 1200000 },
   { sampleInput with
      reporting_quarter := 2
      fiscal_reporting_quarter := 2
      fiscal_reporting_date := 739066
      total_revenue := 1100000 },
   sampleInput]

/-- Association-list lookup, modelling a Python dict read. -/
def alookup {α β : Type} [DecidableEq α] : List (α × β) → α → Option β
  | [], _ => none
  | (a, b) :: l, k => if a = k then some b else alookup l k

/-- Error taxonomy of currency_conversion.py: the three ways
_fetch_exchange_rate can raise (requests.RequestException re-raised as a
ValueError at line 163, the explicit ValueError at line 156, and a
decimal.InvalidOperation escaping from the Decimal(str(...)) parse at line
158).  The spec names this class of failures RateUnavailable. -/
inductive FxError where
  | requestFailed
  | invalidResponse
  | parseFailure
deriving DecidableEq

/-- Observable behaviour of one call to the external FX rate API: either the
HTTP layer fails, or a JSON body is returned that may lack the rates map, may
lack the requested symbol, or may carry an unparseable value (None here). -/
inductive ApiResponse where
  | netError
  | json (rates : Option (List (Currency × Option ℚ)))

/-- The private module function _fetch_exchange_rate (currency_conversion.py
125-163): raises on network failure, on a body without a parseable rate for
the target currency, and otherwise returns the rate. -/
def fetch_exchange_rate_api (resp : ApiResponse) (to_currency : Currency) :
    Except FxError ℚ :=
  match resp with
  | .netError => .error .requestFailed
  | .json none => .error .invalidResponse
  | .json (some rates) =>
    match alookup rates to_currency with
    | none => .error .invalidResponse
    | some none => .error .parseFailure
    | some (some r) => .ok r

/-- Key of both caches in currency_conversion.py: the (from_currency,
to_currency, date) argument triple. -/
abbrev RateKey := Currency × Currency × CalDate

/-- The external rate source as seen by get_exchange_rate: one deterministic
Except-valued answer per key (a historical rate does not change between
calls). -/
abbrev FxOracle := RateKey → Except FxError ℚ

/-- Mutable module state of currency_conversion.py: the memo table of the
functools.lru_cache decorator on get_exchange_rate (line 30, maxsize 100, most
recently used first), the module-level exchange_rates nested dict (line 28,
flattened to key triples), and a ghost log with one entry per invocation of
_fetch_exchange_rate. -/
structure FxCache where
  lru : List (RateKey × ℚ)
  dict : List (RateKey × ℚ)
  fetchLog : List RateKey
deriving DecidableEq

/-- State at interpreter start: both caches empty, nothing fetched. -/
def emptyCache : FxCache := { lru := [], dict := [], fetchLog := [] }

/-- Move a hit entry of the lru_cache memo table to most-recently-used. -/
def lruTouch (lru : List (RateKey × ℚ)) (k : RateKey) (v : ℚ) :
    List (RateKey × ℚ) :=
  (k, v) :: lru.filter (fun p => decide (p.1 ≠ k))

/-- Record a fresh result in the lru_cache memo table, evicting the least
recently used entry beyond capacity 100. -/
def lruInsert (lru : List (RateKey × ℚ)) (k : RateKey) (v : ℚ) :
    List (RateKey × ℚ) :=
  ((k, v) :: lru.filter (fun p => decide (p.1 ≠ k))).take 100

/-- Store a rate in the exchange_rates dict (currency_conversion.py 59-63),
overwriting any entry for the same triple and keeping all others. -/
def dictInsert (d : List (RateKey × ℚ)) (k : RateKey) (v : ℚ) :
    List (RateKey × ℚ) :=
  (k, v) :: d.filter (fun p => decide (p.1 ≠ k))

/-- get_exchange_rate (currency_conversion.py 30-65).  The lru_cache decorator
answers repeated argument triples without re-entering the body; the body
consults the exchange_rates dict with a truthiness test (line 51, so a cached
Decimal 0 counts as a miss), otherwise invokes the external fetch, stores the
rate in the dict and returns it.  A raised fetch error leaves both caches
unchanged (the lru_cache does not memoize exceptions). -/
def get_exchange_rate (oracle : FxOracle) (from_currency to_currency : Currency)
    (date : CalDate) (s : FxCache) : Except FxError ℚ × FxCache :=
  let k : RateKey := (from_currency, to_currency, date)
  match alookup s.lru k with
  | some v => (.ok v, { s with lru := lruTouch s.lru k v })
  | none =>
    let fetchPath : Except FxError ℚ × FxCache :=
      match oracle k with
      | .error e => (.error e, { s with fetchLog := s.fetchLog ++ [k] })
      | .ok r =>
        (.ok r,
          { lru := lruInsert s.lru k r
            dict := dictInsert s.dict k r
            fetchLog := s.fetchLog ++ [k] })
    match alookup s.dict k with
    | some cached_rate =>
      if cached_rate = 0 then fetchPath
      else (.ok cached_rate, { s with lru := lruInsert s.lru k cached_rate })
    | none => fetchPath

/-- convert_currency (currency_conversion.py 67-90): identity when the two
currencies coincide (no provider call, no rounding), otherwise the looked-up
rate is applied and the product is rounded to two places. -/
def convert_currency (oracle : FxOracle) (amount : ℚ)
    (from_currency to_currency : Currency) (date : CalDate) (s : FxCache) :
    Except FxError ℚ × FxCache :=
  if from_currency = to_currency then (.ok amount, s)
  else
    match get_exchange_rate oracle from_currency to_currency date s with
    | (.ok rate, s') => (.ok (quantize2 (amount * rate)), s')
    | (.error e, s') => (.error e, s')

/-- A sequence of get_exchange_rate calls within one process lifetime,
returning the final module state. -/
def runGetRates (oracle : FxOracle) (calls : List RateKey) (s : FxCache) :
    FxCache :=
  calls.foldl (fun st k => (get_exchange_rate oracle k.1 k.2.1 k.2.2 st).2) s

/-- Number of occurrences of a key in the ghost fetch log: how often the
external API was invoked for that (from, to, date) triple. -/
def keyCount : List RateKey → RateKey → ℕ
  | [], _ => 0
  | j :: l, k => (if j = k then 1 else 0) + keyCount l k

/-- Consistency of the exchange_rates dict with the external source: every
stored rate is the rate the source reports for its key.  Holds at interpreter
start and is preserved by every call. -/
def DictOk (oracle : FxOracle) (s : FxCache) : Prop :=
  ∀ k v, alookup s.dict k = some v → oracle k = .ok v

/-- Invariant for a fixed key: the external source has been consulted at most
once for it, and not at all while the exchange_rates dict has no entry for
it. -/
def FetchOnce (k₀ : RateKey) (s : FxCache) : Prop :=
  (alookup s.dict k₀ = none → keyCount s.fetchLog k₀ = 0) ∧
    keyCount s.fetchLog k₀ ≤ 1

/-- Modelled from the spec: standard (non-banker's) half-up rounding to two
decimal places, as the words of section 4.2 of the specification describe the
converter's rounding.  Defined only to compare the claimed rounding with the
rounding the source actually performs. -/
def round2_half_up_spec (x : ℚ) : ℚ := (⌊x * 100 + 1/2⌋ : ℚ) / 100

/-- External source answering rate 0 for the key with date 0 and rate 1
elsewhere; exercises the truthiness test of currency_conversion.py line 51. -/
def zeroRateOracle : FxOracle :=
  fun k => if k.2.2 = 0 then .ok 0 else .ok 1

/-- Call sequence within one process lifetime: the date-0 key, then 100
distinct keys (filling the lru_cache to capacity and evicting the first
entry), then the date-0 key again. -/
def evictionCalls : List RateKey :=
  (("EUR", "USD", 0) :: (List.range 100).map (fun i => ("EUR", "USD", i + 1)))
    ++ [("EUR", "USD", 0)]

/-- External source with the constant rate 1/10 (a rate producing a half-way
rounding tie for amount 5/4). -/
def tieOracle : FxOracle := fun _ => .ok (1/10)

/-- External source with the constant rate 5/4, used to run the fan-out on
concrete data. -/
def demoOracle : FxOracle := fun _ => .ok (5/4)

/-- The monetary field list iterated by convert_financials
(data_transformation.py 108-109 and 122-123). -/
def monetary_fields : List String :=
  ["total_revenue", "recurring_revenue", "gross_profit",
   "sales_marketing_expense", "total_operating_expense", "ebitda",
   "net_income", "cash_burn", "cash_balance", "debt_outstanding"]

/-- getattr(input_metrics, field) for the monetary fields; the optional field
yields its stored Option, any name outside the iterated list is never
consulted by the source. -/
def MetricsInput.getattr (m : MetricsInput) : String → Option ℚ
  | "total_revenue" => some m.total_revenue
  | "recurring_revenue" => some m.recurring_revenue
  | "gross_profit" => some m.gross_profit
  | "sales_marketing_expense" => some m.sales_marketing_expense
  | "total_operating_expense" => some m.total_operating_expense
  | "ebitda" => some m.ebitda
  | "net_income" => some m.net_income
  | "cash_burn" => some m.cash_burn
  | "cash_balance" => some m.cash_balance
  | "debt_outstanding" => m.debt_outstanding
  | _ => none

/-- One per-currency dict of converted_financials: field name to value in
insertion order (all keys written exactly once per iteration). -/
abbrev FieldDict := List (String × Option ℚ)

/-- Assignment to one key of the converted_financials dict keyed by currency:
overwrite an existing entry in place, else append. -/
def mapSet (m : List (Currency × FieldDict)) (c : Currency) (e : FieldDict) :
    List (Currency × FieldDict) :=
  if (alookup m c).isSome then
    m.map (fun p => if p.1 = c then (c, e) else p)
  else m ++ [(c, e)]

/-- The source-currency branch of convert_financials (data_transformation.py
120-125): every monetary field copied verbatim, exchange_rate_used
Decimal 1.0. -/
def nativeEntry (im : MetricsInput) : FieldDict :=
  (monetary_fields.map (fun f => (f, im.getattr f))) ++
    [("exchange_rate_used", some 1)]

/-- The per-field loop of the non-native branch of convert_financials
(data_transformation.py 108-115): each present field is converted through
convert_currency with the input's currency, the target currency and the
fiscal reporting date; absent optional fields pass through as None; a raised
conversion error aborts the whole fan-out. -/
def convertFields (oracle : FxOracle) (im : MetricsInput) (tgt : Currency) :
    List String → FieldDict → FxCache → Except FxError (FieldDict × FxCache)
  | [], acc, s => .ok (acc, s)
  | f :: rest, acc, s =>
    match im.getattr f with
    | some v =>
      match convert_currency oracle v im.currency tgt
          im.fiscal_reporting_date s with
      | (.ok cv, s') =>
        convertFields oracle im tgt rest (acc ++ [(f, some cv)]) s'
      | (.error e, _) => .error e
    | none => convertFields oracle im tgt rest (acc ++ [(f, none)]) s

/-- One non-native iteration of convert_financials (data_transformation.py
104-119): the ten fields are converted, then the exchange rate used is looked
up once more (line 118) and recorded under exchange_rate_used. -/
def convertOne (oracle : FxOracle) (im : MetricsInput) (tgt : Currency)
    (s : FxCache) : Except FxError (FieldDict × FxCache) :=
  match convertFields oracle im tgt monetary_fields [] s with
  | .error e => .error e
  | .ok (entry, s') =>
    match get_exchange_rate oracle im.currency tgt
        im.fiscal_reporting_date s' with
    | (.ok rate, s'') =>
      .ok (entry ++ [("exchange_rate_used", some rate)], s'')
    | (.error e, _) => .error e

/-- The loop over target_currencies of convert_financials
(data_transformation.py 104-125): a non-native target is converted and stored
under its currency key, the native target copies the input verbatim into the
entry of the input's own currency. -/
def convertLoop (oracle : FxOracle) (im : MetricsInput) :
    List Currency → List (Currency × FieldDict) → FxCache →
      Except FxError (List (Currency × FieldDict) × FxCache)
  | [], m, s => .ok (m, s)
  | t :: rest, m, s =>
    if t ≠ im.currency then
      match convertOne oracle im t s with
      | .ok (entry, s') => convertLoop oracle im rest (mapSet m t entry) s'
      | .error e => .error e
    else
      convertLoop oracle im rest (mapSet m im.currency (nativeEntry im)) s

/-- DataTransformationService.convert_financials (data_transformation.py
89-127): the result dict starts with an empty entry for the input's own
currency (line 100) and is filled by the loop over the target currencies. -/
def convert_financials (oracle : FxOracle) (im : MetricsInput)
    (target_currencies : List Currency) (s : FxCache) :
    Except FxError (List (Currency × FieldDict) × FxCache) :=
  convertLoop oracle im target_currencies [(im.currency, [])] s

/-- The target currency list that transform_data passes to convert_financials
(data_transformation.py line 70): USD and CAD only — the native currency is
not added to the list. -/
def transform_target_currencies : List Currency := ["USD", "CAD"]

/-- A quarterly input whose native currency is neither USD nor CAD. -/
def eurInput : MetricsInput := { sampleInput with currency := "EUR" }

/-- Concrete fan-out run: sampleInput through the transform_data target list
against the constant-rate source, from a cold cache. -/
def fanoutDemoResult : Except FxError (List (Currency × FieldDict) × FxCache) :=
  convert_financials demoOracle sampleInput transform_target_currencies
    emptyCache

/-- Result map of the concrete fan-out run. -/
def fanoutDemoMap : List (Currency × FieldDict) :=
  match fanoutDemoResult with
  | .ok (m, _) => m
  | .error _ => []

/-- Final cache state of the concrete fan-out run. -/
def fanoutDemoState : FxCache :=
  match fanoutDemoResult with
  | .ok (_, s) => s
  | .error _ => emptyCache

/-- ReportingFinancials ORM model (src/backend/models/reporting_financials.py
8-50).  The monetary columns are held as Options because the update path
assigns them from dict values that may be None; the audit columns are carried
opaquely to state the frame property of the update path. -/
@[ext]
structure ReportingFinancials where
  id : ℕ
  company_id : ℕ
  currency : Currency
  exchange_rate_used : Option ℚ
  total_revenue : Option ℚ
  recurring_revenue : Option ℚ
  gross_profit : Option ℚ
  sales_marketing_expense : Option ℚ
  total_operating_expense : Option ℚ
  ebitda : Option ℚ
  net_income : Option ℚ
  cash_burn : Option ℚ
  cash_balance : Option ℚ
  debt_outstanding : Option ℚ
  fiscal_reporting_date : CalDate
  fiscal_reporting_quarter : ℤ
  reporting_year : ℤ
  reporting_quarter : ℤ
  created_date : ℕ
  created_by : String
  last_update_date : Option ℕ
  last_updated_by : Option String
deriving DecidableEq

/-- setattr(existing_financials, field, value) of the update branch
(data_transformation.py 158-159): the eleven dict keys name mapped monetary
and rate columns; any other name would set an unmapped attribute and touch no
column. -/
def setField (r : ReportingFinancials) (name : String) (v : Option ℚ) :
    ReportingFinancials :=
  if name = "total_revenue" then { r with total_revenue := v }
  else if name = "recurring_revenue" then { r with recurring_revenue := v }
  else if name = "gross_profit" then { r with gross_profit := v }
  else if name = "sales_marketing_expense" then
    { r with sales_marketing_expense := v }
  else if name = "total_operating_expense" then
    { r with total_operating_expense := v }
  else if name = "ebitda" then { r with ebitda := v }
  else if name = "net_income" then { r with net_income := v }
  else if name = "cash_burn" then { r with cash_burn := v }
  else if name = "cash_balance" then { r with cash_balance := v }
  else if name = "debt_outstanding" then { r with debt_outstanding := v }
  else if name = "exchange_rate_used" then { r with exchange_rate_used := v }
  else r

/-- The setattr loop of the update branch (data_transformation.py 158-159):
assign every entry of the currency's dict in order. -/
def applyFields (r : ReportingFinancials) (e : FieldDict) :
    ReportingFinancials :=
  e.foldl (fun acc p => setField acc p.1 p.2) r

/-- Filter of the upsert query (data_transformation.py 147-152). -/
def financialsKeyMatch (company_id : ℕ) (cur : Currency)
    (reporting_year reporting_quarter : ℤ) (r : ReportingFinancials) : Bool :=
  decide (r.company_id = company_id ∧ r.currency = cur ∧
    r.reporting_year = reporting_year ∧
    r.reporting_quarter = reporting_quarter)

/-- One currency's upsert step (data_transformation.py 145-170), expressed as
its effect on the persisted table: exactly one matching row is overwritten in
place by the setattr loop.  No matching row takes the construction branch of
lines 162-169, which raises a TypeError because the ReportingFinancials
constructor also requires fiscal_reporting_date, fiscal_reporting_quarter and
created_by, none of which is passed (reporting_financials.py 52-58); two or
more matching rows make scalar_one_or_none raise MultipleResultsFound. -/
def upsertStep (db : List ReportingFinancials) (company_id : ℕ)
    (reporting_year reporting_quarter : ℤ) (cur : Currency) (e : FieldDict) :
    Except String (List ReportingFinancials) :=
  match db.filter
      (financialsKeyMatch company_id cur reporting_year reporting_quarter) with
  | [_r] => .ok (db.map fun r =>
      if financialsKeyMatch company_id cur reporting_year reporting_quarter r
      then applyFields r e else r)
  | [] => .error "TypeError: ReportingFinancials() missing required arguments"
  | _ => .error "MultipleResultsFound"

/-- DataTransformationService.update_reporting_financials
(data_transformation.py 129-172) over every currency of the fan-out result;
the mutated session objects are the matching rows of the table, and a raised
error aborts the remaining currencies. -/
def update_reporting_financials (company_id : ℕ)
    (reporting_year reporting_quarter : ℤ) :
    List ReportingFinancials → List (Currency × FieldDict) →
      Except String (List ReportingFinancials)
  | db, [] => .ok db
  | db, (cur, e) :: rest =>
    match upsertStep db company_id reporting_year reporting_quarter cur e with
    | .ok db' =>
      update_reporting_financials company_id reporting_year reporting_quarter
        db' rest
    | .error msg => .error msg

/-- Persisted state after one transformation invocation's upsert and commit
(data_transformation.py 74 and 79-83): on success the updated rows are
committed; a raised error reaches transform_data before the commit, so the
table is unchanged. -/
def upsertRun (db : List ReportingFinancials) (company_id : ℕ)
    (reporting_year reporting_quarter : ℤ)
    (conv : List (Currency × FieldDict)) : List ReportingFinancials :=
  match update_reporting_financials company_id reporting_year
      reporting_quarter db conv with
  | .ok db' => db'
  | .error _ => db

/-- Key columns of a persisted ReportingFinancials row (the upsert key). -/
def financialsKey (r : ReportingFinancials) : ℕ × Currency × ℤ × ℤ :=
  (r.company_id, r.currency, r.reporting_year, r.reporting_quarter)

/-- The dict keys that the fan-out writes: the ten monetary fields plus the
recorded exchange rate. -/
def updatable_field_names : List String :=
  monetary_fields ++ ["exchange_rate_used"]

/-- Last-write value of one field name over a dict, starting from a column's
prior value. -/
def applyVal (n : String) (i : Option ℚ) (e : FieldDict) : Option ℚ :=
  e.foldl (fun acc p => if p.1 = n then p.2 else acc) i

/-- Concatenation, in order, of all fan-out dicts whose currency and run key
match one row. -/
def recDicts (company_id : ℕ) (reporting_year reporting_quarter : ℤ)
    (conv : List (Currency × FieldDict)) (r : ReportingFinancials) :
    FieldDict :=
  ((conv.filter (fun p =>
    financialsKeyMatch company_id p.1 reporting_year reporting_quarter r)).map
      (·.2)).flatten

/-- C7: for every value x, each division-based helper returns 0 when its
denominator is 0 and never an error or infinity: percentage_of_revenue,
per_fte, growth_rate and runway_months all map a zero denominator to 0. -/
theorem zero_denominator_guards :
    ∀ x : ℚ, calculate_percentage_of_revenue x 0 = 0 ∧
      calculate_per_fte x 0 = 0 ∧
      calculate_growth_rate x 0 = 0 ∧
      calculate_runway_months x 0 = 0 := by
  intro x
  refine ⟨rfl, rfl, rfl, rfl⟩

/-- C6: calculate_ltm_metrics raises a ValueError for every input list whose
length differs from 4, and for every list of exactly 4 quarterly inputs it
returns the exact decimal sums of the four quarters for total revenue, gross
profit, sales and marketing expense, operating expense, EBITDA and net
income. -/
theorem calculate_ltm_metrics_spec :
    ∀ qs : List MetricsInput,
      (qs.length ≠ 4 →
        calculate_ltm_metrics qs =
          .error "LTM calculations require exactly 4 quarters of data") ∧
      (qs.length = 4 →
        ∃ m, calculate_ltm_metrics qs = .ok m ∧
          m.ltm_total_revenue = (qs.map (·.total_revenue)).sum ∧
          m.ltm_gross_profit = (qs.map (·.gross_profit)).sum ∧
          m.ltm_sales_marketing_expense =
            (qs.map (·.sales_marketing_expense)).sum ∧
          m.ltm_operating_expense =
            (qs.map (·.total_operating_expense)).sum ∧
          m.ltm_ebitda = (qs.map (·.ebitda)).sum ∧
          m.ltm_net_income = (qs.map (·.net_income)).sum) := by
  intro qs
  constructor
  · intro h
    simp [calculate_ltm_metrics, h]
  · intro h
    have hx : calculate_ltm_metrics qs = .ok
        { ltm_total_revenue := (qs.map (·.total_revenue)).sum
          ltm_gross_profit := (qs.map (·.gross_profit)).sum
          ltm_sales_marketing_expense := (qs.map (·.sales_marketing_expense)).sum
          ltm_gross_margin := calculate_percentage_of_revenue
            ((qs.map (·.gross_profit)).sum) ((qs.map (·.total_revenue)).sum)
          ltm_operating_expense := (qs.map (·.total_operating_expense)).sum
          ltm_ebitda := (qs.map (·.ebitda)).sum
          ltm_net_income := (qs.map (·.net_income)).sum
          ltm_ebitda_margin := calculate_percentage_of_revenue
            ((qs.map (·.ebitda)).sum) ((qs.map (·.total_revenue)).sum)
          ltm_net_income_margin := calculate_percentage_of_revenue
            ((qs.map (·.net_income)).sum) ((qs.map (·.total_revenue)).sum) } := by
      simp [calculate_ltm_metrics, h]
    exact ⟨_, hx, rfl, rfl, rfl, rfl, rfl, rfl⟩

/-- C6 witness: the theorem applied to a concrete 3-quarter list (error) and
the concrete 4-quarter history (exact sum 4600000). -/
theorem calculate_ltm_metrics_spec_witness :
    (calculate_ltm_metrics ltmHistoryDb.tail =
      .error "LTM calculations require exactly 4 quarters of data") ∧
    (∃ m, calculate_ltm_metrics ltmHistoryDb = .ok m ∧
      m.ltm_total_revenue = (ltmHistoryDb.map (·.total_revenue)).sum ∧
      m.ltm_gross_profit = (ltmHistoryDb.map (·.gross_profit)).sum ∧
      m.ltm_sales_marketing_expense =
        (ltmHistoryDb.map (·.sales_marketing_expense)).sum ∧
      m.ltm_operating_expense =
        (ltmHistoryDb.map (·.total_operating_expense)).sum ∧
      m.ltm_ebitda = (ltmHistoryDb.map (·.ebitda)).sum ∧
      m.ltm_net_income = (ltmHistoryDb.map (·.net_income)).sum) :=
  ⟨(calculate_ltm_metrics_spec ltmHistoryDb.tail).1 (by decide),
   (calculate_ltm_metrics_spec ltmHistoryDb).2 (by decide)⟩

/-- C2 counterexample: for company 1 and period 2023 Q4 the database holds all
four trailing quarterly inputs (2023 Q1-Q4), yet the record returned by
calculate_derived_metrics has every LTM aggregate field unset, contradicting
the claim that the LTM fields are attached whenever four trailing quarterly
inputs are available. -/
theorem calculate_derived_metrics_ltm_unset_counterexample :
    (ltmHistoryDb.countP (inputMatches 1 2023 1) = 1 ∧
     ltmHistoryDb.countP (inputMatches 1 2023 2) = 1 ∧
     ltmHistoryDb.countP (inputMatches 1 2023 3) = 1 ∧
     ltmHistoryDb.countP (inputMatches 1 2023 4) = 1) ∧
    (calculate_derived_metrics ltmHistoryDb 1 2023 4).map
      (fun m => (m.ltm_total_revenue, m.ltm_gross_profit,
        m.ltm_sales_marketing_expense, m.ltm_gross_margin,
        m.ltm_operating_expense, m.ltm_ebitda, m.ltm_net_income,
        m.ltm_ebitda_margin, m.ltm_net_income_margin)) =
      .ok (none, none, none, none, none, none, none, none, none) :=
  ⟨by decide, rfl⟩

/-- C2 (amended): calculate_derived_metrics raises the InputNotFound ValueError
when no quarterly input exists for the requested period, and every record it
returns has every LTM aggregate field unset, no matter how many trailing
quarters are available in the database (calculate_ltm_metrics is never invoked
by it). -/
theorem calculate_derived_metrics_spec :
    ∀ (db : List MetricsInput) (cid : ℕ) (y q : ℤ),
      (db.find? (inputMatches cid y q) = none →
        calculate_derived_metrics db cid y q =
          .error "No input metrics found for the given company and reporting period") ∧
      (∀ m, calculate_derived_metrics db cid y q = .ok m →
        m.ltm_total_revenue = none ∧ m.ltm_gross_profit = none ∧
        m.ltm_sales_marketing_expense = none ∧ m.ltm_gross_margin = none ∧
        m.ltm_operating_expense = none ∧ m.ltm_ebitda = none ∧
        m.ltm_net_income = none ∧ m.ltm_ebitda_margin = none ∧
        m.ltm_net_income_margin = none) := by
  intro db cid y q
  constructor
  · intro h
    simp [calculate_derived_metrics, h]
  · intro m hm
    unfold calculate_derived_metrics at hm
    cases hfind : db.find? (inputMatches cid y q) with
    | none =>
      rw [hfind] at hm
      cases hm
    | some im =>
      rw [hfind] at hm
      cases hm
      exact ⟨rfl, rfl, rfl, rfl, rfl, rfl, rfl, rfl, rfl⟩

/-- C2 witness: the amended theorem applied to the empty database (raises) and
to the concrete four-quarter history (returns a record, LTM fields none). -/
theorem calculate_derived_metrics_spec_witness :
    (calculate_derived_metrics [] 1 2023 4 =
      .error "No input metrics found for the given company and reporting period") ∧
    (∃ m, calculate_derived_metrics ltmHistoryDb 1 2023 4 = .ok m ∧
      m.ltm_total_revenue = none) :=
  ⟨(calculate_derived_metrics_spec [] 1 2023 4).1 rfl,
   ⟨_, rfl, ((calculate_derived_metrics_spec ltmHistoryDb 1 2023 4).2 _ rfl).1⟩⟩

theorem alookup_cons {α β : Type} [DecidableEq α] (a : α) (b : β)
    (l : List (α × β)) (k : α) :
    alookup ((a, b) :: l) k = if a = k then some b else alookup l k := rfl

theorem alookup_filter_ne {α β : Type} [DecidableEq α] (l : List (α × β))
    (k k' : α) (h : ¬ k = k') :
    alookup (l.filter (fun p => decide (p.1 ≠ k))) k' = alookup l k' := by
  induction l with
  | nil => rfl
  | cons p t ih =>
    obtain ⟨a, b⟩ := p
    by_cases ha : a = k
    · have hak : ¬ a = k' := by rw [ha]; exact h
      rw [List.filter_cons, if_neg (by simp [ha]), ih, alookup_cons, if_neg hak]
    · rw [List.filter_cons, if_pos (by simp [ha]), alookup_cons, alookup_cons, ih]

theorem alookup_lruTouch_self (l : List (RateKey × ℚ)) (k : RateKey) (v : ℚ) :
    alookup (lruTouch l k v) k = some v := by
  simp [lruTouch, alookup_cons]

theorem alookup_lruInsert_self (l : List (RateKey × ℚ)) (k : RateKey) (v : ℚ) :
    alookup (lruInsert l k v) k = some v := by
  have h : lruInsert l k v =
      (k, v) :: (l.filter (fun p => decide (p.1 ≠ k))).take 99 := rfl
  rw [h, alookup_cons]
  simp

theorem alookup_dictInsert (d : List (RateKey × ℚ)) (k : RateKey) (v : ℚ)
    (k' : RateKey) :
    alookup (dictInsert d k v) k' =
      if k = k' then some v else alookup d k' := by
  by_cases h : k = k'
  · rw [dictInsert, alookup_cons, if_pos h, if_pos h]
  · rw [dictInsert, alookup_cons, if_neg h, if_neg h, alookup_filter_ne _ _ _ h]

theorem keyCount_append (l₁ l₂ : List RateKey) (k : RateKey) :
    keyCount (l₁ ++ l₂) k = keyCount l₁ k + keyCount l₂ k := by
  induction l₁ with
  | nil => simp [keyCount]
  | cons j t ih => simp [keyCount, ih, Nat.add_assoc]

theorem get_exchange_rate_hit (oracle : FxOracle) (fc tc : Currency)
    (d : CalDate) (s : FxCache) (v : ℚ)
    (h : alookup s.lru (fc, tc, d) = some v) :
    get_exchange_rate oracle fc tc d s =
      (.ok v, { s with lru := lruTouch s.lru (fc, tc, d) v }) := by
  simp [get_exchange_rate, h]

theorem get_exchange_rate_dict_hit (oracle : FxOracle) (fc tc : Currency)
    (d : CalDate) (s : FxCache) (c : ℚ)
    (hl : alookup s.lru (fc, tc, d) = none)
    (hd : alookup s.dict (fc, tc, d) = some c) (hc : ¬ c = 0) :
    get_exchange_rate oracle fc tc d s =
      (.ok c, { s with lru := lruInsert s.lru (fc, tc, d) c }) := by
  simp [get_exchange_rate, hl, hd, hc]

theorem get_exchange_rate_fetch_ok (oracle : FxOracle) (fc tc : Currency)
    (d : CalDate) (s : FxCache) (r : ℚ)
    (hl : alookup s.lru (fc, tc, d) = none)
    (hd : alookup s.dict (fc, tc, d) = none ∨
      alookup s.dict (fc, tc, d) = some 0)
    (ho : oracle (fc, tc, d) = .ok r) :
    get_exchange_rate oracle fc tc d s =
      (.ok r,
        { lru := lruInsert s.lru (fc, tc, d) r
          dict := dictInsert s.dict (fc, tc, d) r
          fetchLog := s.fetchLog ++ [(fc, tc, d)] }) := by
  rcases hd with hd | hd
  · simp [get_exchange_rate, hl, hd, ho]
  · simp [get_exchange_rate, hl, hd, ho]

theorem get_exchange_rate_fetch_error (oracle : FxOracle) (fc tc : Currency)
    (d : CalDate) (s : FxCache) (e : FxError)
    (hl : alookup s.lru (fc, tc, d) = none)
    (hd : alookup s.dict (fc, tc, d) = none ∨
      alookup s.dict (fc, tc, d) = some 0)
    (ho : oracle (fc, tc, d) = .error e) :
    get_exchange_rate oracle fc tc d s =
      (.error e, { s with fetchLog := s.fetchLog ++ [(fc, tc, d)] }) := by
  rcases hd with hd | hd
  · simp [get_exchange_rate, hl, hd, ho]
  · simp [get_exchange_rate, hl, hd, ho]

theorem get_exchange_rate_ok_state (oracle : FxOracle) (fc tc : Currency)
    (d : CalDate) (s : FxCache) (v : ℚ) (s' : FxCache)
    (h : get_exchange_rate oracle fc tc d s = (.ok v, s')) :
    alookup s'.lru (fc, tc, d) = some v ∧
      (s'.fetchLog = s.fetchLog ∨ s'.fetchLog = s.fetchLog ++ [(fc, tc, d)]) := by
  cases hl : alookup s.lru (fc, tc, d) with
  | some w =>
    rw [get_exchange_rate_hit oracle fc tc d s w hl] at h
    simp only [Prod.mk.injEq, Except.ok.injEq] at h
    obtain ⟨hv, hs⟩ := h
    subst hv; subst hs
    exact ⟨alookup_lruTouch_self _ _ _, Or.inl rfl⟩
  | none =>
    cases hd : alookup s.dict (fc, tc, d) with
    | some c =>
      by_cases hc : c = 0
      · cases ho : oracle (fc, tc, d) with
        | error e =>
          rw [get_exchange_rate_fetch_error oracle fc tc d s e hl
            (Or.inr (hc ▸ hd)) ho] at h
          simp at h
        | ok r =>
          rw [get_exchange_rate_fetch_ok oracle fc tc d s r hl
            (Or.inr (hc ▸ hd)) ho] at h
          simp only [Prod.mk.injEq, Except.ok.injEq] at h
          obtain ⟨hv, hs⟩ := h
          subst hv; subst hs
          exact ⟨alookup_lruInsert_self _ _ _, Or.inr rfl⟩
      · rw [get_exchange_rate_dict_hit oracle fc tc d s c hl hd hc] at h
        simp only [Prod.mk.injEq, Except.ok.injEq] at h
        obtain ⟨hv, hs⟩ := h
        subst hv; subst hs
        exact ⟨alookup_lruInsert_self _ _ _, Or.inl rfl⟩
    | none =>
      cases ho : oracle (fc, tc, d) with
      | error e =>
        rw [get_exchange_rate_fetch_error oracle fc tc d s e hl (Or.inl hd) ho]
          at h
        simp at h
      | ok r =>
        rw [get_exchange_rate_fetch_ok oracle fc tc d s r hl (Or.inl hd) ho]
          at h
        simp only [Prod.mk.injEq, Except.ok.injEq] at h
        obtain ⟨hv, hs⟩ := h
        subst hv; subst hs
        exact ⟨alookup_lruInsert_self _ _ _, Or.inr rfl⟩

theorem get_exchange_rate_dict_cases (oracle : FxOracle) (fc tc : Currency)
    (d : CalDate) (s : FxCache) :
    ((get_exchange_rate oracle fc tc d s).2.dict = s.dict ∧
      (get_exchange_rate oracle fc tc d s).2.fetchLog = s.fetchLog) ∨
    (∃ r, oracle (fc, tc, d) = .ok r ∧
      (get_exchange_rate oracle fc tc d s).2.dict =
        dictInsert s.dict (fc, tc, d) r ∧
      (get_exchange_rate oracle fc tc d s).2.fetchLog =
        s.fetchLog ++ [(fc, tc, d)] ∧
      (alookup s.dict (fc, tc, d) = none ∨
        alookup s.dict (fc, tc, d) = some 0)) ∨
    (∃ e, oracle (fc, tc, d) = .error e ∧
      (get_exchange_rate oracle fc tc d s).2.dict = s.dict ∧
      (get_exchange_rate oracle fc tc d s).2.fetchLog =
        s.fetchLog ++ [(fc, tc, d)]) := by
  cases hl : alookup s.lru (fc, tc, d) with
  | some w =>
    rw [get_exchange_rate_hit oracle fc tc d s w hl]
    exact Or.inl ⟨rfl, rfl⟩
  | none =>
    cases hd : alookup s.dict (fc, tc, d) with
    | some c =>
      by_cases hc : c = 0
      · cases ho : oracle (fc, tc, d) with
        | error e =>
          rw [get_exchange_rate_fetch_error oracle fc tc d s e hl
            (Or.inr (hc ▸ hd)) ho]
          exact Or.inr (Or.inr ⟨e, rfl, rfl, rfl⟩)
        | ok r =>
          rw [get_exchange_rate_fetch_ok oracle fc tc d s r hl
            (Or.inr (hc ▸ hd)) ho]
          exact Or.inr (Or.inl ⟨r, rfl, rfl, rfl, Or.inr (by rw [hc])⟩)
      · rw [get_exchange_rate_dict_hit oracle fc tc d s c hl hd hc]
        exact Or.inl ⟨rfl, rfl⟩
    | none =>
      cases ho : oracle (fc, tc, d) with
      | error e =>
        rw [get_exchange_rate_fetch_error oracle fc tc d s e hl (Or.inl hd) ho]
        exact Or.inr (Or.inr ⟨e, rfl, rfl, rfl⟩)
      | ok r =>
        rw [get_exchange_rate_fetch_ok oracle fc tc d s r hl (Or.inl hd) ho]
        exact Or.inr (Or.inl ⟨r, rfl, rfl, rfl, Or.inl rfl⟩)

theorem dictOk_empty (oracle : FxOracle) : DictOk oracle emptyCache := by
  intro k v hv
  cases hv

theorem fetchOnce_empty (k₀ : RateKey) : FetchOnce k₀ emptyCache :=
  ⟨fun _ => rfl, by simp [keyCount, emptyCache]⟩

theorem dictOk_step (oracle : FxOracle) (fc tc : Currency) (d : CalDate)
    (s : FxCache) (h : DictOk oracle s) :
    DictOk oracle (get_exchange_rate oracle fc tc d s).2 := by
  rcases get_exchange_rate_dict_cases oracle fc tc d s with
    ⟨hd, _⟩ | ⟨r, hor, hd, _, _⟩ | ⟨e, hoe, hd, _⟩
  · intro k v hv; rw [hd] at hv; exact h k v hv
  · intro k v hv
    rw [hd, alookup_dictInsert] at hv
    by_cases hk : (fc, tc, d) = k
    · rw [if_pos hk] at hv
      cases hv
      rw [← hk]; exact hor
    · rw [if_neg hk] at hv; exact h k v hv
  · intro k v hv; rw [hd] at hv; exact h k v hv

theorem dict_mono_step (oracle : FxOracle) (fc tc : Currency) (d : CalDate)
    (s : FxCache) (h : DictOk oracle s) (k : RateKey) (v : ℚ)
    (hv : alookup s.dict k = some v) :
    alookup (get_exchange_rate oracle fc tc d s).2.dict k = some v := by
  rcases get_exchange_rate_dict_cases oracle fc tc d s with
    ⟨hd, _⟩ | ⟨r, hor, hd, _, hz⟩ | ⟨e, hoe, hd, _⟩
  · rw [hd]; exact hv
  · rw [hd, alookup_dictInsert]
    by_cases hk : (fc, tc, d) = k
    · rw [if_pos hk]
      subst hk
      rcases hz with hz | hz
      · rw [hz] at hv; cases hv
      · rw [hz] at hv
        cases hv
        have hzr := h _ _ hz
        rw [hzr] at hor
        cases hor
        rfl
    · rw [if_neg hk]; exact hv
  · rw [hd]; exact hv

theorem fetchOnce_step (oracle : FxOracle) (k₀ : RateKey) (r₀ : ℚ)
    (hk : oracle k₀ = .ok r₀) (hr : r₀ ≠ 0) (fc tc : Currency) (d : CalDate)
    (s : FxCache) (hd : DictOk oracle s) (h : FetchOnce k₀ s) :
    FetchOnce k₀ (get_exchange_rate oracle fc tc d s).2 := by
  rcases get_exchange_rate_dict_cases oracle fc tc d s with
    ⟨hdd, hll⟩ | ⟨r, hor, hdd, hll, hz⟩ | ⟨e, hoe, hdd, hll⟩
  · exact ⟨by rw [hdd, hll]; exact h.1, by rw [hll]; exact h.2⟩
  · by_cases hkey : (fc, tc, d) = k₀
    · subst hkey
      rcases hz with hz | hz
      · have h0 : keyCount s.fetchLog (fc, tc, d) = 0 := h.1 hz
        constructor
        · intro hcon
          rw [hdd, alookup_dictInsert, if_pos rfl] at hcon
          cases hcon
        · rw [hll, keyCount_append, h0]
          simp [keyCount]
      · have hzr := hd _ _ hz
        rw [hzr] at hk
        cases hk
        exact absurd rfl hr
    · constructor
      · intro hcon
        rw [hdd, alookup_dictInsert, if_neg hkey] at hcon
        have h0 : keyCount s.fetchLog k₀ = 0 := h.1 hcon
        rw [hll, keyCount_append, h0, keyCount, keyCount, if_neg hkey]
      · rw [hll, keyCount_append, keyCount, keyCount, if_neg hkey]
        simpa using h.2
  · by_cases hkey : (fc, tc, d) = k₀
    · rw [hkey] at hoe
      rw [hoe] at hk
      cases hk
    · constructor
      · intro hcon
        rw [hdd] at hcon
        have h0 : keyCount s.fetchLog k₀ = 0 := h.1 hcon
        rw [hll, keyCount_append, h0, keyCount, keyCount, if_neg hkey]
      · rw [hll, keyCount_append, keyCount, keyCount, if_neg hkey]
        simpa using h.2

theorem runGetRates_cons (oracle : FxOracle) (c : RateKey) (t : List RateKey)
    (s : FxCache) :
    runGetRates oracle (c :: t) s =
      runGetRates oracle t (get_exchange_rate oracle c.1 c.2.1 c.2.2 s).2 := rfl

theorem runGetRates_preserves (oracle : FxOracle) (k₀ : RateKey) (r₀ : ℚ)
    (hk : oracle k₀ = .ok r₀) (hr : r₀ ≠ 0) :
    ∀ (calls : List RateKey) (s : FxCache), DictOk oracle s → FetchOnce k₀ s →
      DictOk oracle (runGetRates oracle calls s) ∧
        FetchOnce k₀ (runGetRates oracle calls s) := by
  intro calls
  induction calls with
  | nil => intro s h1 h2; exact ⟨h1, h2⟩
  | cons c t ih =>
    intro s h1 h2
    rw [runGetRates_cons]
    exact ih _ (dictOk_step oracle c.1 c.2.1 c.2.2 s h1)
      (fetchOnce_step oracle k₀ r₀ hk hr c.1 c.2.1 c.2.2 s h1 h2)

theorem runGetRates_dict_mono (oracle : FxOracle) :
    ∀ (calls : List RateKey) (s : FxCache), DictOk oracle s →
      ∀ k v, alookup s.dict k = some v →
        alookup (runGetRates oracle calls s).dict k = some v := by
  intro calls
  induction calls with
  | nil => intro s _ k v hv; exact hv
  | cons c t ih =>
    intro s h1 k v hv
    rw [runGetRates_cons]
    exact ih _ (dictOk_step oracle c.1 c.2.1 c.2.2 s h1) k v
      (dict_mono_step oracle c.1 c.2.1 c.2.2 s h1 k v hv)

set_option maxRecDepth 100000 in
/-- C3 counterexample: one process-lifetime call sequence in which the
external fetch for the fixed key (EUR, USD, date 0) is invoked twice: its rate
is Decimal 0, 100 further distinct keys evict it from the lru_cache memo
table, and the dict cache's truthiness test (currency_conversion.py line 51)
then treats the cached 0 as a miss and refetches. -/
theorem exchange_rate_refetch_counterexample :
    keyCount (runGetRates zeroRateOracle evictionCalls emptyCache).fetchLog
      ("EUR", "USD", 0) = 2 := by
  decide

/-- C3 (amended): for every fixed key whose fetched rate is nonzero, the
external rate fetch is invoked at most once across any number of
get_exchange_rate calls in one process lifetime, and a rate once stored in the
exchange_rates dict is never evicted and keeps its value under any further
calls.  A key whose rate is exactly 0 can be refetched once the lru_cache
entry is evicted, because the dict presence test treats a cached 0 as a
miss. -/
theorem exchange_rate_cache_fetch_at_most_once :
    ∀ (oracle : FxOracle) (calls : List RateKey) (k : RateKey) (r : ℚ),
      oracle k = .ok r → r ≠ 0 →
      keyCount (runGetRates oracle calls emptyCache).fetchLog k ≤ 1 ∧
      ∀ (more : List RateKey) (k' : RateKey) (v : ℚ),
        alookup (runGetRates oracle calls emptyCache).dict k' = some v →
        alookup (runGetRates oracle (calls ++ more) emptyCache).dict k' =
          some v := by
  intro oracle calls k r hk hr
  have hpre := runGetRates_preserves oracle k r hk hr calls emptyCache
    (dictOk_empty oracle) (fetchOnce_empty k)
  constructor
  · exact hpre.2.2
  · intro more k' v hv
    have hrun : runGetRates oracle (calls ++ more) emptyCache =
        runGetRates oracle more (runGetRates oracle calls emptyCache) := by
      simp [runGetRates, List.foldl_append]
    rw [hrun]
    exact runGetRates_dict_mono oracle more _ hpre.1 k' v hv

/-- C3 witness: the amended theorem applied to a concrete nonzero-rate key
called twice; both hypotheses are discharged concretely. -/
theorem exchange_rate_cache_fetch_at_most_once_witness :
    zeroRateOracle ("EUR", "USD", 5) = .ok 1 ∧ (1 : ℚ) ≠ 0 ∧
    (keyCount (runGetRates zeroRateOracle
        [("EUR", "USD", 5), ("EUR", "USD", 5)] emptyCache).fetchLog
        ("EUR", "USD", 5) ≤ 1 ∧
      ∀ (more : List RateKey) (k' : RateKey) (v : ℚ),
        alookup (runGetRates zeroRateOracle
          [("EUR", "USD", 5), ("EUR", "USD", 5)] emptyCache).dict k' = some v →
        alookup (runGetRates zeroRateOracle
          ([("EUR", "USD", 5), ("EUR", "USD", 5)] ++ more) emptyCache).dict k' =
          some v) :=
  ⟨rfl, by decide,
    exchange_rate_cache_fetch_at_most_once zeroRateOracle
      [("EUR", "USD", 5), ("EUR", "USD", 5)] ("EUR", "USD", 5) 1 rfl
      (by decide)⟩

/-- C5 counterexample: converting amount 5/4 from USD to CAD at rate 1/10
gives the product 0.125; the source rounds it with banker's rounding to 0.12,
whereas the claimed standard (half-up) rounding yields 0.13. -/
theorem convert_currency_half_even_counterexample :
    (convert_currency tieOracle (5/4) "USD" "CAD" 0 emptyCache).1 =
      .ok (3/25) ∧
    round2_half_up_spec ((5/4) * (1/10)) = 13/100 ∧ (3/25 : ℚ) ≠ 13/100 :=
  ⟨by
    norm_num [convert_currency, get_exchange_rate, emptyCache, alookup,
      tieOracle, quantize2, roundHalfEvenZ]
    rw [if_neg (by decide : ¬ ("USD" : String) = "CAD")],
   by norm_num [round2_half_up_spec],
   by norm_num⟩

/-- C5 (amended): for distinct currencies and an uncached key the converter
returns the product of amount and the provider rate rounded to two decimal
places with banker's (half-even) rounding, and for equal currencies it
returns the amount exactly unchanged, without rounding and without touching
the provider or the caches. -/
theorem convert_currency_rounding_spec :
    ∀ (oracle : FxOracle) (amount : ℚ) (fc tc : Currency) (d : CalDate),
      (∀ s : FxCache, fc = tc →
        convert_currency oracle amount fc tc d s = (.ok amount, s)) ∧
      (fc ≠ tc → ∀ r, oracle (fc, tc, d) = .ok r →
        (convert_currency oracle amount fc tc d emptyCache).1 =
          .ok (quantize2 (amount * r))) := by
  intro oracle amount fc tc d
  constructor
  · intro s h
    simp [convert_currency, h]
  · intro h r hor
    simp [convert_currency, h, get_exchange_rate, alookup, emptyCache, hor]

/-- C5 witness: the amended theorem applied at a concrete identity conversion
and a concrete cross-currency conversion. -/
theorem convert_currency_rounding_spec_witness :
    (convert_currency tieOracle (5/4) "USD" "USD" 0 emptyCache =
      (.ok (5/4), emptyCache)) ∧
    ((convert_currency tieOracle (5/4) "USD" "CAD" 0 emptyCache).1 =
      .ok (quantize2 ((5/4) * (1/10)))) :=
  ⟨(convert_currency_rounding_spec tieOracle (5/4) "USD" "USD" 0).1
      emptyCache rfl,
   (convert_currency_rounding_spec tieOracle (5/4) "USD" "CAD" 0).2
      (by decide) (1/10) rfl⟩

/-- C8: a network failure or a response without a parseable rate for the
target currency makes the fetch raise a RateUnavailable-class error, and on a
cache miss that error propagates unchanged through get_exchange_rate and
convert_currency; no default rate is substituted and no result is returned. -/
theorem rate_unavailable_propagates :
    (∀ tc : Currency,
      fetch_exchange_rate_api .netError tc = .error .requestFailed) ∧
    (∀ (ro : Option (List (Currency × Option ℚ))) (tc : Currency),
      (ro = none ∨ (∃ rates, ro = some rates ∧ alookup rates tc = none) ∨
        (∃ rates, ro = some rates ∧ alookup rates tc = some none)) →
      ∃ e, fetch_exchange_rate_api (.json ro) tc = .error e) ∧
    (∀ (oracle : FxOracle) (fc tc : Currency) (d : CalDate) (s : FxCache)
        (e : FxError),
      alookup s.lru (fc, tc, d) = none →
      (alookup s.dict (fc, tc, d) = none ∨
        alookup s.dict (fc, tc, d) = some 0) →
      oracle (fc, tc, d) = .error e →
      (get_exchange_rate oracle fc tc d s).1 = .error e ∧
      ∀ amount, fc ≠ tc →
        (convert_currency oracle amount fc tc d s).1 = .error e) := by
  refine ⟨fun tc => rfl, ?_, ?_⟩
  · intro ro tc hbad
    rcases hbad with h | ⟨rates, hro, hl⟩ | ⟨rates, hro, hl⟩
    · subst h; exact ⟨.invalidResponse, rfl⟩
    · subst hro
      exact ⟨.invalidResponse, by simp [fetch_exchange_rate_api, hl]⟩
    · subst hro
      exact ⟨.parseFailure, by simp [fetch_exchange_rate_api, hl]⟩
  · intro oracle fc tc d s e hlru hdict hor
    have hget : (get_exchange_rate oracle fc tc d s).1 = .error e := by
      rcases hdict with hdict | hdict
      · simp [get_exchange_rate, hlru, hdict, hor]
      · simp [get_exchange_rate, hlru, hdict, hor]
    refine ⟨hget, ?_⟩
    intro amount hne
    unfold convert_currency
    rw [if_neg hne]
    cases hg : get_exchange_rate oracle fc tc d s with
    | mk res st =>
      rw [hg] at hget
      cases res with
      | error e' => cases hget; rfl
      | ok r => cases hget

/-- C8 witness: the theorem applied to a concrete network failure, a concrete
rate-less body, and a concrete erroring source with an empty cache. -/
theorem rate_unavailable_propagates_witness :
    fetch_exchange_rate_api .netError "USD" = .error .requestFailed ∧
    (∃ e, fetch_exchange_rate_api (.json (some [("JPY", some 150)])) "USD" =
      .error e) ∧
    ((get_exchange_rate (fun _ => .error .requestFailed) "EUR" "USD" 3
        emptyCache).1 = .error .requestFailed ∧
      ∀ amount, "EUR" ≠ "USD" →
        (convert_currency (fun _ => .error .requestFailed) amount "EUR" "USD" 3
          emptyCache).1 = .error .requestFailed) :=
  ⟨rate_unavailable_propagates.1 "USD",
   rate_unavailable_propagates.2.1 (some [("JPY", some 150)]) "USD"
     (Or.inr (Or.inl ⟨_, rfl, by decide⟩)),
   rate_unavailable_propagates.2.2 (fun _ => .error .requestFailed)
     "EUR" "USD" 3 emptyCache .requestFailed rfl (Or.inl rfl) rfl⟩

/-- C1: evaluation of the fan-out at the failing input — with the target list
that transform_data actually passes (USD and CAD, never the native currency),
the fan-out of an input whose native currency is EUR leaves the native entry
completely empty: no monetary field is copied and no exchange rate 1.0 is
recorded, while the claim (and data_transformation.py line 73 and the final
return at line 87) expects a populated native record. -/
theorem transform_fanout_native_entry_empty_for_eur :
    (convert_financials demoOracle eurInput transform_target_currencies
        emptyCache).map (fun p => alookup p.1 "EUR") = .ok (some []) ∧
    nativeEntry eurInput ≠ [] :=
  ⟨rfl, by decide⟩

theorem alookup_append_last {α β : Type} [DecidableEq α] (l : List (α × β))
    (k : α) (v : β) (h : ∀ p ∈ l, ¬ p.1 = k) :
    alookup (l ++ [(k, v)]) k = some v := by
  induction l with
  | nil => simp [alookup_cons]
  | cons p t ih =>
    obtain ⟨a, b⟩ := p
    have ha : ¬ a = k := h (a, b) (List.mem_cons_self _ _)
    rw [List.cons_append, alookup_cons, if_neg ha]
    exact ih fun q hq => h q (List.mem_cons_of_mem _ hq)

theorem alookup_append_one {α β : Type} [DecidableEq α] (l : List (α × β))
    (k : α) (v : β) (k' : α) (h : ¬ k = k') :
    alookup (l ++ [(k, v)]) k' = alookup l k' := by
  induction l with
  | nil => simp [alookup_cons, h, alookup]
  | cons p t ih =>
    obtain ⟨a, b⟩ := p
    rw [List.cons_append, alookup_cons, alookup_cons, ih]

theorem monetary_fields_ne_rate_key :
    ∀ f ∈ monetary_fields, ¬ f = "exchange_rate_used" := by decide

theorem convert_currency_ok_state (oracle : FxOracle) (amount : ℚ)
    (fc tc : Currency) (d : CalDate) (s : FxCache) (cv : ℚ) (s' : FxCache)
    (hne : ¬ fc = tc)
    (h : convert_currency oracle amount fc tc d s = (.ok cv, s')) :
    ∃ v, cv = quantize2 (amount * v) ∧ alookup s'.lru (fc, tc, d) = some v ∧
      (s'.fetchLog = s.fetchLog ∨ s'.fetchLog = s.fetchLog ++ [(fc, tc, d)]) := by
  unfold convert_currency at h
  rw [if_neg hne] at h
  cases hg : get_exchange_rate oracle fc tc d s with
  | mk gres gs =>
    rw [hg] at h
    cases gres with
    | error e => simp at h
    | ok v =>
      simp only [Prod.mk.injEq, Except.ok.injEq] at h
      obtain ⟨h1, h2⟩ := h
      subst h1; subst h2
      have hst := get_exchange_rate_ok_state oracle fc tc d s v gs hg
      exact ⟨v, rfl, hst.1, hst.2⟩

theorem convertFields_cached (oracle : FxOracle) (im : MetricsInput)
    (tgt : Currency) (hne : ¬ im.currency = tgt) (v : ℚ) :
    ∀ (fields : List String) (acc : FieldDict) (s : FxCache)
      (entry : FieldDict) (s₁ : FxCache),
      alookup s.lru (im.currency, tgt, im.fiscal_reporting_date) = some v →
      convertFields oracle im tgt fields acc s = .ok (entry, s₁) →
      alookup s₁.lru (im.currency, tgt, im.fiscal_reporting_date) = some v ∧
      s₁.fetchLog = s.fetchLog ∧
      ∃ tail, entry = acc ++ tail ∧
        (∀ p ∈ tail, p.1 ∈ fields) ∧
        (∀ f cv, (f, some cv) ∈ tail →
          ∃ w, im.getattr f = some w ∧ cv = quantize2 (w * v)) := by
  intro fields
  induction fields with
  | nil =>
    intro acc s entry s₁ hlru h
    simp only [convertFields] at h
    cases h
    exact ⟨hlru, rfl, [], (List.append_nil acc).symm,
      fun p hp => absurd hp (List.not_mem_nil p),
      fun f cv hp => absurd hp (List.not_mem_nil _)⟩
  | cons f rest ih =>
    intro acc s entry s₁ hlru h
    cases hget : im.getattr f with
    | some w =>
      have hcc : convert_currency oracle w im.currency tgt
          im.fiscal_reporting_date s =
          (.ok (quantize2 (w * v)),
            { s with lru :=
                lruTouch s.lru (im.currency, tgt, im.fiscal_reporting_date) v }) := by
        unfold convert_currency
        rw [if_neg hne, get_exchange_rate_hit oracle im.currency tgt
          im.fiscal_reporting_date s v hlru]
      have heq : convertFields oracle im tgt (f :: rest) acc s =
          convertFields oracle im tgt rest
            (acc ++ [(f, some (quantize2 (w * v)))])
            { s with lru :=
                lruTouch s.lru (im.currency, tgt, im.fiscal_reporting_date) v } := by
        simp [convertFields, hget, hcc]
      rw [heq] at h
      obtain ⟨h1, h2, tail, he, hmem, hconv⟩ :=
        ih _ _ _ _ (alookup_lruTouch_self s.lru _ v) h
      refine ⟨h1, h2, (f, some (quantize2 (w * v))) :: tail, ?_, ?_, ?_⟩
      · rw [he]; simp
      · intro p hp
        rcases List.mem_cons.mp hp with hp | hp
        · rw [hp]; exact List.mem_cons_self _ _
        · exact List.mem_cons_of_mem _ (hmem p hp)
      · intro f' cv hp
        rcases List.mem_cons.mp hp with hp | hp
        · simp only [Prod.mk.injEq, Option.some.injEq] at hp
          obtain ⟨hf, hv⟩ := hp
          subst hf; subst hv
          exact ⟨w, hget, rfl⟩
        · exact hconv f' cv hp
    | none =>
      have heq : convertFields oracle im tgt (f :: rest) acc s =
          convertFields oracle im tgt rest (acc ++ [(f, none)]) s := by
        simp [convertFields, hget]
      rw [heq] at h
      obtain ⟨h1, h2, tail, he, hmem, hconv⟩ := ih _ _ _ _ hlru h
      refine ⟨h1, h2, (f, none) :: tail, ?_, ?_, ?_⟩
      · rw [he]; simp
      · intro p hp
        rcases List.mem_cons.mp hp with hp | hp
        · rw [hp]; exact List.mem_cons_self _ _
        · exact List.mem_cons_of_mem _ (hmem p hp)
      · intro f' cv hp
        rcases List.mem_cons.mp hp with hp | hp
        · simp at hp
        · exact hconv f' cv hp

theorem convertFields_spec (oracle : FxOracle) (im : MetricsInput)
    (tgt : Currency) (hne : ¬ im.currency = tgt) :
    ∀ (fields : List String) (acc : FieldDict) (s : FxCache)
      (entry : FieldDict) (s₁ : FxCache),
      convertFields oracle im tgt fields acc s = .ok (entry, s₁) →
      (s₁ = s ∧ ∃ tail, entry = acc ++ tail ∧
        (∀ p ∈ tail, p.1 ∈ fields) ∧
        (∀ p ∈ tail, p.2 = (none : Option ℚ))) ∨
      (∃ v, alookup s₁.lru (im.currency, tgt, im.fiscal_reporting_date) =
          some v ∧
        (s₁.fetchLog = s.fetchLog ∨
          s₁.fetchLog = s.fetchLog ++
            [(im.currency, tgt, im.fiscal_reporting_date)]) ∧
        ∃ tail, entry = acc ++ tail ∧
          (∀ p ∈ tail, p.1 ∈ fields) ∧
          (∀ f cv, (f, some cv) ∈ tail →
            ∃ w, im.getattr f = some w ∧ cv = quantize2 (w * v))) := by
  intro fields
  induction fields with
  | nil =>
    intro acc s entry s₁ h
    simp only [convertFields] at h
    cases h
    exact Or.inl ⟨rfl, [], (List.append_nil acc).symm,
      fun p hp => absurd hp (List.not_mem_nil p),
      fun p hp => absurd hp (List.not_mem_nil p)⟩
  | cons f rest ih =>
    intro acc s entry s₁ h
    cases hget : im.getattr f with
    | none =>
      have heq : convertFields oracle im tgt (f :: rest) acc s =
          convertFields oracle im tgt rest (acc ++ [(f, none)]) s := by
        simp [convertFields, hget]
      rw [heq] at h
      rcases ih _ _ _ _ h with ⟨hs, tail, he, hmem, hnone⟩ |
        ⟨v, h1, h2, tail, he, hmem, hconv⟩
      · refine Or.inl ⟨hs, (f, none) :: tail, ?_, ?_, ?_⟩
        · rw [he]; simp
        · intro p hp
          rcases List.mem_cons.mp hp with hp | hp
          · rw [hp]; exact List.mem_cons_self _ _
          · exact List.mem_cons_of_mem _ (hmem p hp)
        · intro p hp
          rcases List.mem_cons.mp hp with hp | hp
          · rw [hp]
          · exact hnone p hp
      · refine Or.inr ⟨v, h1, h2, (f, none) :: tail, ?_, ?_, ?_⟩
        · rw [he]; simp
        · intro p hp
          rcases List.mem_cons.mp hp with hp | hp
          · rw [hp]; exact List.mem_cons_self _ _
          · exact List.mem_cons_of_mem _ (hmem p hp)
        · intro f' cv hp
          rcases List.mem_cons.mp hp with hp | hp
          · simp at hp
          · exact hconv f' cv hp
    | some w =>
      simp only [convertFields, hget] at h
      cases hcc : convert_currency oracle w im.currency tgt
          im.fiscal_reporting_date s with
      | mk res s₀ =>
        rw [hcc] at h
        cases res with
        | error e => simp at h
        | ok cv =>
          obtain ⟨v₀, hcv, hlru₀, hlog₀⟩ :=
            convert_currency_ok_state oracle w im.currency tgt
              im.fiscal_reporting_date s cv s₀ hne hcc
          obtain ⟨h1, h2, tail, he, hmem, hconv⟩ :=
            convertFields_cached oracle im tgt hne v₀ rest _ _ _ _ hlru₀ h
          refine Or.inr ⟨v₀, h1, ?_, (f, some cv) :: tail, ?_, ?_, ?_⟩
          · rw [h2]; exact hlog₀
          · rw [he]; simp
          · intro p hp
            rcases List.mem_cons.mp hp with hp | hp
            · rw [hp]; exact List.mem_cons_self _ _
            · exact List.mem_cons_of_mem _ (hmem p hp)
          · intro f' cv' hp
            rcases List.mem_cons.mp hp with hp | hp
            · simp only [Prod.mk.injEq, Option.some.injEq] at hp
              obtain ⟨hf, hv⟩ := hp
              subst hf; subst hv
              exact ⟨w, hget, hcv⟩
            · exact hconv f' cv' hp

theorem keyCount_singleton (j k : RateKey) :
    keyCount [j] k = if j = k then 1 else 0 := by
  simp [keyCount]

theorem alookup_append_self_of_none {α β : Type} [DecidableEq α]
    (l : List (α × β)) (k : α) (v : β) (h : alookup l k = none) :
    alookup (l ++ [(k, v)]) k = some v := by
  induction l with
  | nil => simp [alookup_cons]
  | cons p t ih =>
    obtain ⟨a, b⟩ := p
    rw [alookup_cons] at h
    by_cases ha : a = k
    · rw [if_pos ha] at h; cases h
    · rw [if_neg ha] at h
      rw [List.cons_append, alookup_cons, if_neg ha]
      exact ih h

theorem alookup_map_replace_self (m : List (Currency × FieldDict))
    (c : Currency) (e : FieldDict) (h : (alookup m c).isSome) :
    alookup (m.map (fun p => if p.1 = c then (c, e) else p)) c = some e := by
  induction m with
  | nil => simp [alookup] at h
  | cons p t ih =>
    obtain ⟨a, b⟩ := p
    by_cases ha : a = c
    · have hh : (if (a, b).1 = c then (c, e) else (a, b)) = (c, e) := by
        simp [ha]
      rw [List.map_cons, hh, alookup_cons, if_pos rfl]
    · have hh : (if (a, b).1 = c then (c, e) else (a, b)) = (a, b) := by
        simp [ha]
      rw [List.map_cons, hh, alookup_cons, if_neg ha]
      rw [alookup_cons, if_neg ha] at h
      exact ih h

theorem alookup_map_replace_other (m : List (Currency × FieldDict))
    (c : Currency) (e : FieldDict) (c' : Currency) (h : ¬ c = c') :
    alookup (m.map (fun p => if p.1 = c then (c, e) else p)) c' =
      alookup m c' := by
  induction m with
  | nil => rfl
  | cons p t ih =>
    obtain ⟨a, b⟩ := p
    by_cases ha : a = c
    · have hh : (if (a, b).1 = c then (c, e) else (a, b)) = (c, e) := by
        simp [ha]
      rw [List.map_cons, hh, alookup_cons, alookup_cons, if_neg h,
        if_neg (fun hac => h (ha.symm.trans hac)), ih]
    · have hh : (if (a, b).1 = c then (c, e) else (a, b)) = (a, b) := by
        simp [ha]
      rw [List.map_cons, hh, alookup_cons, alookup_cons, ih]

theorem alookup_mapSet_self (m : List (Currency × FieldDict)) (c : Currency)
    (e : FieldDict) :
    alookup (mapSet m c e) c = some e := by
  unfold mapSet
  by_cases h : (alookup m c).isSome
  · rw [if_pos h]
    exact alookup_map_replace_self m c e h
  · rw [if_neg h]
    apply alookup_append_self_of_none
    cases hx : alookup m c with
    | none => rfl
    | some q => rw [hx] at h; simp at h

theorem alookup_mapSet_other (m : List (Currency × FieldDict)) (c : Currency)
    (e : FieldDict) (c' : Currency) (h : ¬ c = c') :
    alookup (mapSet m c e) c' = alookup m c' := by
  unfold mapSet
  by_cases hs : (alookup m c).isSome
  · rw [if_pos hs]
    exact alookup_map_replace_other m c e c' h
  · rw [if_neg hs]
    exact alookup_append_one m c e c' h

theorem convertOne_spec (oracle : FxOracle) (im : MetricsInput) (tc : Currency)
    (hne : ¬ im.currency = tc) (s : FxCache) (entry : FieldDict) (s₂ : FxCache)
    (h : convertOne oracle im tc s = .ok (entry, s₂)) :
    ∃ rate, alookup entry "exchange_rate_used" = some (some rate) ∧
      (∀ f v, (f, some v) ∈ entry → ¬ f = "exchange_rate_used" →
        ∃ w, im.getattr f = some w ∧ v = quantize2 (w * rate)) ∧
      (s₂.fetchLog = s.fetchLog ∨
        s₂.fetchLog = s.fetchLog ++
          [(im.currency, tc, im.fiscal_reporting_date)]) := by
  cases hcf : convertFields oracle im tc monetary_fields [] s with
  | error e =>
    have hx : convertOne oracle im tc s = .error e := by
      unfold convertOne; rw [hcf]
    rw [hx] at h; cases h
  | ok pr =>
    obtain ⟨fe, s₁⟩ := pr
    have h2 : (match get_exchange_rate oracle im.currency tc
        im.fiscal_reporting_date s₁ with
      | (.ok rate, s'') =>
        Except.ok (fe ++ [("exchange_rate_used", some rate)], s'')
      | (.error e, _) =>
        (Except.error e : Except FxError (FieldDict × FxCache))) =
        .ok (entry, s₂) := by
      rw [← h]
      unfold convertOne
      rw [hcf]
    rcases convertFields_spec oracle im tc hne monetary_fields [] s fe s₁ hcf
      with ⟨hs, tail, he, hmem, hnone⟩ | ⟨v, hv, hlog, tail, he, hmem, hconv⟩
    · cases hg : get_exchange_rate oracle im.currency tc
          im.fiscal_reporting_date s₁ with
      | mk gres gs =>
        rw [hg] at h2
        cases gres with
        | error e => simp at h2
        | ok rate =>
          simp only [Prod.mk.injEq, Except.ok.injEq] at h2
          obtain ⟨h3, h4⟩ := h2
          subst h3; subst h4
          have hst := get_exchange_rate_ok_state oracle im.currency tc
            im.fiscal_reporting_date s₁ rate gs hg
          refine ⟨rate, ?_, ?_, ?_⟩
          · rw [he]
            simp only [List.nil_append]
            exact alookup_append_last tail _ _
              fun p hp => monetary_fields_ne_rate_key p.1 (hmem p hp)
          · intro f v hp hf
            rw [he] at hp
            simp only [List.nil_append] at hp
            rcases List.mem_append.mp hp with hp | hp
            · have := hnone _ hp
              simp at this
            · simp only [List.mem_singleton, Prod.mk.injEq] at hp
              exact absurd hp.1 hf
          · rw [hs] at hst
            exact hst.2
    · rw [get_exchange_rate_hit oracle im.currency tc
        im.fiscal_reporting_date s₁ v hv] at h2
      simp only [Prod.mk.injEq, Except.ok.injEq] at h2
      obtain ⟨h3, h4⟩ := h2
      subst h3; subst h4
      refine ⟨v, ?_, ?_, hlog⟩
      · rw [he]
        simp only [List.nil_append]
        exact alookup_append_last tail _ _
          fun p hp => monetary_fields_ne_rate_key p.1 (hmem p hp)
      · intro f v' hp hf
        rw [he] at hp
        simp only [List.nil_append] at hp
        rcases List.mem_append.mp hp with hp | hp
        · exact hconv f v' hp
        · simp only [List.mem_singleton, Prod.mk.injEq] at hp
          exact absurd hp.1 hf

theorem convertLoop_step_native (oracle : FxOracle) (im : MetricsInput)
    (t : Currency) (rest : List Currency)
    (m₀ : List (Currency × FieldDict)) (s : FxCache) (ht : t = im.currency) :
    convertLoop oracle im (t :: rest) m₀ s =
      convertLoop oracle im rest (mapSet m₀ im.currency (nativeEntry im)) s := by
  simp only [convertLoop]
  rw [if_neg (fun hn => hn ht)]

theorem convertLoop_step_other (oracle : FxOracle) (im : MetricsInput)
    (t : Currency) (rest : List Currency)
    (m₀ : List (Currency × FieldDict)) (s : FxCache) (ht : ¬ t = im.currency)
    (entry : FieldDict) (s₁ : FxCache)
    (hone : convertOne oracle im t s = .ok (entry, s₁)) :
    convertLoop oracle im (t :: rest) m₀ s =
      convertLoop oracle im rest (mapSet m₀ t entry) s₁ := by
  simp only [convertLoop]
  rw [if_pos ht, hone]

theorem convertLoop_step_error (oracle : FxOracle) (im : MetricsInput)
    (t : Currency) (rest : List Currency)
    (m₀ : List (Currency × FieldDict)) (s : FxCache) (ht : ¬ t = im.currency)
    (e : FxError) (hone : convertOne oracle im t s = .error e) :
    convertLoop oracle im (t :: rest) m₀ s = .error e := by
  simp only [convertLoop]
  rw [if_pos ht, hone]

theorem convertLoop_log (oracle : FxOracle) (im : MetricsInput) :
    ∀ (targets : List Currency) (m₀ : List (Currency × FieldDict))
      (s : FxCache) (m : List (Currency × FieldDict)) (s' : FxCache),
      convertLoop oracle im targets m₀ s = .ok (m, s') →
      ∀ K : RateKey,
        (∀ t, t ∈ targets →
          ¬ K = (im.currency, t, im.fiscal_reporting_date)) →
        keyCount s'.fetchLog K = keyCount s.fetchLog K := by
  intro targets
  induction targets with
  | nil =>
    intro m₀ s m s' h K hK
    simp only [convertLoop] at h
    cases h
    rfl
  | cons t rest ih =>
    intro m₀ s m s' h K hK
    by_cases ht : t = im.currency
    · rw [convertLoop_step_native oracle im t rest m₀ s ht] at h
      exact ih _ _ _ _ h K fun t' ht' => hK t' (List.mem_cons_of_mem _ ht')
    · cases hone : convertOne oracle im t s with
      | error e =>
        rw [convertLoop_step_error oracle im t rest m₀ s ht e hone] at h
        cases h
      | ok pr =>
        obtain ⟨entry_t, s₁⟩ := pr
        rw [convertLoop_step_other oracle im t rest m₀ s ht entry_t s₁ hone]
          at h
        obtain ⟨rate_t, _, _, hlog₁⟩ :=
          convertOne_spec oracle im t (fun hh => ht hh.symm) s entry_t s₁ hone
        have hrest := ih _ _ _ _ h K
          fun t' ht' => hK t' (List.mem_cons_of_mem _ ht')
        rw [hrest]
        rcases hlog₁ with hl | hl
        · rw [hl]
        · rw [hl, keyCount_append, keyCount_singleton,
            if_neg (fun heq => hK t (List.mem_cons_self _ _) heq.symm)]
          omega

theorem convertLoop_map_frame (oracle : FxOracle) (im : MetricsInput) :
    ∀ (targets : List Currency) (m₀ : List (Currency × FieldDict))
      (s : FxCache) (m : List (Currency × FieldDict)) (s' : FxCache),
      convertLoop oracle im targets m₀ s = .ok (m, s') →
      ∀ c, c ∉ targets → ¬ c = im.currency → alookup m c = alookup m₀ c := by
  intro targets
  induction targets with
  | nil =>
    intro m₀ s m s' h c _ _
    simp only [convertLoop] at h
    cases h
    rfl
  | cons t rest ih =>
    intro m₀ s m s' h c hc hcne
    have hct : c ∉ rest := fun hh => hc (List.mem_cons_of_mem _ hh)
    by_cases ht : t = im.currency
    · rw [convertLoop_step_native oracle im t rest m₀ s ht] at h
      rw [ih _ _ _ _ h c hct hcne,
        alookup_mapSet_other _ _ _ _ (fun hh => hcne hh.symm)]
    · cases hone : convertOne oracle im t s with
      | error e =>
        rw [convertLoop_step_error oracle im t rest m₀ s ht e hone] at h
        cases h
      | ok pr =>
        obtain ⟨entry_t, s₁⟩ := pr
        rw [convertLoop_step_other oracle im t rest m₀ s ht entry_t s₁ hone]
          at h
        have htc : ¬ t = c := fun hh => hc (hh ▸ List.mem_cons_self _ _)
        rw [ih _ _ _ _ h c hct hcne, alookup_mapSet_other _ _ _ _ htc]

theorem convertLoop_spec (oracle : FxOracle) (im : MetricsInput) :
    ∀ (targets : List Currency) (m₀ : List (Currency × FieldDict))
      (s : FxCache) (m : List (Currency × FieldDict)) (s' : FxCache),
      targets.Nodup →
      convertLoop oracle im targets m₀ s = .ok (m, s') →
      ∀ tc, tc ∈ targets → ¬ tc = im.currency →
        ∃ entry rate,
          alookup m tc = some entry ∧
          alookup entry "exchange_rate_used" = some (some rate) ∧
          (∀ f v, (f, some v) ∈ entry → ¬ f = "exchange_rate_used" →
            ∃ w, im.getattr f = some w ∧ v = quantize2 (w * rate)) ∧
          keyCount s'.fetchLog (im.currency, tc, im.fiscal_reporting_date) ≤
            keyCount s.fetchLog (im.currency, tc, im.fiscal_reporting_date)
              + 1 := by
  intro targets
  induction targets with
  | nil =>
    intro m₀ s m s' _ h tc htc
    exact absurd htc (List.not_mem_nil tc)
  | cons t rest ih =>
    intro m₀ s m s' hnd h tc htc hne
    obtain ⟨htnotin, hnd'⟩ := List.nodup_cons.mp hnd
    by_cases ht : t = im.currency
    · rw [convertLoop_step_native oracle im t rest m₀ s ht] at h
      rcases List.mem_cons.mp htc with heq | htc'
      · exact absurd (heq.trans ht) hne
      · exact ih _ _ _ _ hnd' h tc htc' hne
    · cases hone : convertOne oracle im t s with
      | error e =>
        rw [convertLoop_step_error oracle im t rest m₀ s ht e hone] at h
        cases h
      | ok pr =>
        obtain ⟨entry_t, s₁⟩ := pr
        rw [convertLoop_step_other oracle im t rest m₀ s ht entry_t s₁ hone]
          at h
        obtain ⟨rate_t, hrl, hrc, hlog₁⟩ :=
          convertOne_spec oracle im t (fun hh => ht hh.symm) s entry_t s₁ hone
        rcases List.mem_cons.mp htc with heq | htc'
        · rw [heq]
          refine ⟨entry_t, rate_t, ?_, hrl, hrc, ?_⟩
          · rw [convertLoop_map_frame oracle im rest _ _ _ _ h t htnotin ht,
              alookup_mapSet_self]
          · have hKne : ∀ t', t' ∈ rest →
                ¬ (im.currency, t, im.fiscal_reporting_date) =
                  ((im.currency, t', im.fiscal_reporting_date) : RateKey) := by
              intro t' ht' heq2
              have htt' : t = t' := congrArg (fun p : RateKey => p.2.1) heq2
              exact htnotin (htt' ▸ ht')
            rw [convertLoop_log oracle im rest _ _ _ _ h _ hKne]
            rcases hlog₁ with hl | hl
            · rw [hl]; omega
            · rw [hl, keyCount_append, keyCount_singleton, if_pos rfl]
        · have httc : ¬ t = tc := fun hh => htnotin (hh ▸ htc')
          obtain ⟨entry, rate, h1, h2, h3, h4⟩ := ih _ _ _ _ hnd' h tc htc' hne
          refine ⟨entry, rate, h1, h2, h3, ?_⟩
          rcases hlog₁ with hl | hl
          · rw [hl] at h4; exact h4
          · rw [hl, keyCount_append, keyCount_singleton,
              if_neg (fun heq2 => httc
                (congrArg (fun p : RateKey => p.2.1) heq2))] at h4
            omega

/-- C4: for every non-native target currency in one completed fan-out, the
currency's dict entry records an exchange_rate_used, every converted monetary
field of that entry equals the source field value converted at exactly that
recorded rate, and the external rate fetch for that (source, target, date)
triple was invoked at most once during the whole fan-out. -/
theorem convert_financials_rate_consistency :
    ∀ (oracle : FxOracle) (im : MetricsInput) (targets : List Currency)
      (s : FxCache) (m : List (Currency × FieldDict)) (s' : FxCache),
      targets.Nodup →
      convert_financials oracle im targets s = .ok (m, s') →
      ∀ tc, tc ∈ targets → ¬ tc = im.currency →
        ∃ entry rate,
          alookup m tc = some entry ∧
          alookup entry "exchange_rate_used" = some (some rate) ∧
          (∀ f v, (f, some v) ∈ entry → ¬ f = "exchange_rate_used" →
            ∃ w, im.getattr f = some w ∧ v = quantize2 (w * rate)) ∧
          keyCount s'.fetchLog (im.currency, tc, im.fiscal_reporting_date) ≤
            keyCount s.fetchLog (im.currency, tc, im.fiscal_reporting_date)
              + 1 := by
  intro oracle im targets s m s' hnd h tc htc hne
  exact convertLoop_spec oracle im targets [(im.currency, [])] s m s' hnd h
    tc htc hne

/-- C4 witness: the theorem applied to the concrete fan-out of sampleInput
through the transform_data target list, for the non-native target CAD. -/
theorem convert_financials_rate_consistency_witness :
    transform_target_currencies.Nodup ∧
    convert_financials demoOracle sampleInput transform_target_currencies
      emptyCache = .ok (fanoutDemoMap, fanoutDemoState) ∧
    ("CAD" : Currency) ∈ transform_target_currencies ∧
    ¬ ("CAD" : Currency) = sampleInput.currency ∧
    (∃ entry rate,
      alookup fanoutDemoMap "CAD" = some entry ∧
      alookup entry "exchange_rate_used" = some (some rate) ∧
      (∀ f v, (f, some v) ∈ entry → ¬ f = "exchange_rate_used" →
        ∃ w, sampleInput.getattr f = some w ∧ v = quantize2 (w * rate)) ∧
      keyCount fanoutDemoState.fetchLog
          (sampleInput.currency, "CAD", sampleInput.fiscal_reporting_date) ≤
        keyCount emptyCache.fetchLog
          (sampleInput.currency, "CAD", sampleInput.fiscal_reporting_date)
          + 1) :=
  ⟨by decide, rfl, by decide, by decide,
   convert_financials_rate_consistency demoOracle sampleInput
     transform_target_currencies emptyCache fanoutDemoMap fanoutDemoState
     (by decide) rfl "CAD" (by decide) (by decide)⟩

theorem setField_eq_of_ne (r : ReportingFinancials) (v : Option ℚ) (n : String)
    (e1 : ¬ n = "total_revenue")
    (e2 : ¬ n = "recurring_revenue")
    (e3 : ¬ n = "gross_profit")
    (e4 : ¬ n = "sales_marketing_expense")
    (e5 : ¬ n = "total_operating_expense")
    (e6 : ¬ n = "ebitda")
    (e7 : ¬ n = "net_income")
    (e8 : ¬ n = "cash_burn")
    (e9 : ¬ n = "cash_balance")
    (e10 : ¬ n = "debt_outstanding")
    (e11 : ¬ n = "exchange_rate_used") :
    setField r n v = r := by
  unfold setField
  rw [if_neg e1, if_neg e2, if_neg e3, if_neg e4, if_neg e5, if_neg e6, if_neg e7, if_neg e8, if_neg e9, if_neg e10, if_neg e11]

theorem setField_frame (r : ReportingFinancials) (n : String) (v : Option ℚ) :
    (setField r n v).id = r.id ∧
    (setField r n v).company_id = r.company_id ∧
    (setField r n v).currency = r.currency ∧
    (setField r n v).fiscal_reporting_date = r.fiscal_reporting_date ∧
    (setField r n v).fiscal_reporting_quarter = r.fiscal_reporting_quarter ∧
    (setField r n v).reporting_year = r.reporting_year ∧
    (setField r n v).reporting_quarter = r.reporting_quarter ∧
    (setField r n v).created_date = r.created_date ∧
    (setField r n v).created_by = r.created_by ∧
    (setField r n v).last_update_date = r.last_update_date ∧
    (setField r n v).last_updated_by = r.last_updated_by := by
  by_cases h1 : n = "total_revenue"
  · subst h1
    exact ⟨rfl, rfl, rfl, rfl, rfl, rfl, rfl, rfl, rfl, rfl, rfl⟩
  by_cases h2 : n = "recurring_revenue"
  · subst h2
    exact ⟨rfl, rfl, rfl, rfl, rfl, rfl, rfl, rfl, rfl, rfl, rfl⟩
  by_cases h3 : n = "gross_profit"
  · subst h3
    exact ⟨rfl, rfl, rfl, rfl, rfl, rfl, rfl, rfl, rfl, rfl, rfl⟩
  by_cases h4 : n = "sales_marketing_expense"
  · subst h4
    exact ⟨rfl, rfl, rfl, rfl, rfl, rfl, rfl, rfl, rfl, rfl, rfl⟩
  by_cases h5 : n = "total_operating_expense"
  · subst h5
    exact ⟨rfl, rfl, rfl, rfl, rfl, rfl, rfl, rfl, rfl, rfl, rfl⟩
  by_cases h6 : n = "ebitda"
  · subst h6
    exact ⟨rfl, rfl, rfl, rfl, rfl, rfl, rfl, rfl, rfl, rfl, rfl⟩
  by_cases h7 : n = "net_income"
  · subst h7
    exact ⟨rfl, rfl, rfl, rfl, rfl, rfl, rfl, rfl, rfl, rfl, rfl⟩
  by_cases h8 : n = "cash_burn"
  · subst h8
    exact ⟨rfl, rfl, rfl, rfl, rfl, rfl, rfl, rfl, rfl, rfl, rfl⟩
  by_cases h9 : n = "cash_balance"
  · subst h9
    exact ⟨rfl, rfl, rfl, rfl, rfl, rfl, rfl, rfl, rfl, rfl, rfl⟩
  by_cases h10 : n = "debt_outstanding"
  · subst h10
    exact ⟨rfl, rfl, rfl, rfl, rfl, rfl, rfl, rfl, rfl, rfl, rfl⟩
  by_cases h11 : n = "exchange_rate_used"
  · subst h11
    exact ⟨rfl, rfl, rfl, rfl, rfl, rfl, rfl, rfl, rfl, rfl, rfl⟩
  rw [setField_eq_of_ne r v n h1 h2 h3 h4 h5 h6 h7 h8 h9 h10 h11]
  exact ⟨rfl, rfl, rfl, rfl, rfl, rfl, rfl, rfl, rfl, rfl, rfl⟩

theorem setField_val_total_revenue (r : ReportingFinancials) (n : String)
    (v : Option ℚ) :
    (setField r n v).total_revenue = if n = "total_revenue" then v else r.total_revenue := by
  by_cases hn : n = "total_revenue"
  · subst hn
    rw [if_pos rfl]
    rfl
  · rw [if_neg hn]
    by_cases h1 : n = "total_revenue"
    · exact absurd h1 hn
    by_cases h2 : n = "recurring_revenue"
    · subst h2
      rfl
    by_cases h3 : n = "gross_profit"
    · subst h3
      rfl
    by_cases h4 : n = "sales_marketing_expense"
    · subst h4
      rfl
    by_cases h5 : n = "total_operating_expense"
    · subst h5
      rfl
    by_cases h6 : n = "ebitda"
    · subst h6
      rfl
    by_cases h7 : n = "net_income"
    · subst h7
      rfl
    by_cases h8 : n = "cash_burn"
    · subst h8
      rfl
    by_cases h9 : n = "cash_balance"
    · subst h9
      rfl
    by_cases h10 : n = "debt_outstanding"
    · subst h10
      rfl
    by_cases h11 : n = "exchange_rate_used"
    · subst h11
      rfl
    rw [setField_eq_of_ne r v n h1 h2 h3 h4 h5 h6 h7 h8 h9 h10 h11]

theorem applyFields_val_total_revenue (e : FieldDict) :
    ∀ r : ReportingFinancials,
      (applyFields r e).total_revenue = applyVal "total_revenue" r.total_revenue e := by
  induction e with
  | nil => intro r; rfl
  | cons p t ih =>
    intro r
    have h1 : applyFields r (p :: t) = applyFields (setField r p.1 p.2) t := rfl
    have h2 : applyVal "total_revenue" r.total_revenue (p :: t) =
        applyVal "total_revenue" (if p.1 = "total_revenue" then p.2 else r.total_revenue) t := rfl
    rw [h1, h2, ih, setField_val_total_revenue]

theorem setField_val_recurring_revenue (r : ReportingFinancials) (n : String)
    (v : Option ℚ) :
    (setField r n v).recurring_revenue = if n = "recurring_revenue" then v else r.recurring_revenue := by
  by_cases hn : n = "recurring_revenue"
  · subst hn
    rw [if_pos rfl]
    rfl
  · rw [if_neg hn]
    by_cases h1 : n = "total_revenue"
    · subst h1
      rfl
    by_cases h2 : n = "recurring_revenue"
    · exact absurd h2 hn
    by_cases h3 : n = "gross_profit"
    · subst h3
      rfl
    by_cases h4 : n = "sales_marketing_expense"
    · subst h4
      rfl
    by_cases h5 : n = "total_operating_expense"
    · subst h5
      rfl
    by_cases h6 : n = "ebitda"
    · subst h6
      rfl
    by_cases h7 : n = "net_income"
    · subst h7
      rfl
    by_cases h8 : n = "cash_burn"
    · subst h8
      rfl
    by_cases h9 : n = "cash_balance"
    · subst h9
      rfl
    by_cases h10 : n = "debt_outstanding"
    · subst h10
      rfl
    by_cases h11 : n = "exchange_rate_used"
    · subst h11
      rfl
    rw [setField_eq_of_ne r v n h1 h2 h3 h4 h5 h6 h7 h8 h9 h10 h11]

theorem applyFields_val_recurring_revenue (e : FieldDict) :
    ∀ r : ReportingFinancials,
      (applyFields r e).recurring_revenue = applyVal "recurring_revenue" r.recurring_revenue e := by
  induction e with
  | nil => intro r; rfl
  | cons p t ih =>
    intro r
    have h1 : applyFields r (p :: t) = applyFields (setField r p.1 p.2) t := rfl
    have h2 : applyVal "recurring_revenue" r.recurring_revenue (p :: t) =
        applyVal "recurring_revenue" (if p.1 = "recurring_revenue" then p.2 else r.recurring_revenue) t := rfl
    rw [h1, h2, ih, setField_val_recurring_revenue]

theorem setField_val_gross_profit (r : ReportingFinancials) (n : String)
    (v : Option ℚ) :
    (setField r n v).gross_profit = if n = "gross_profit" then v else r.gross_profit := by
  by_cases hn : n = "gross_profit"
  · subst hn
    rw [if_pos rfl]
    rfl
  · rw [if_neg hn]
    by_cases h1 : n = "total_revenue"
    · subst h1
      rfl
    by_cases h2 : n = "recurring_revenue"
    · subst h2
      rfl
    by_cases h3 : n = "gross_profit"
    · exact absurd h3 hn
    by_cases h4 : n = "sales_marketing_expense"
    · subst h4
      rfl
    by_cases h5 : n = "total_operating_expense"
    · subst h5
      rfl
    by_cases h6 : n = "ebitda"
    · subst h6
      rfl
    by_cases h7 : n = "net_income"
    · subst h7
      rfl
    by_cases h8 : n = "cash_burn"
    · subst h8
      rfl
    by_cases h9 : n = "cash_balance"
    · subst h9
      rfl
    by_cases h10 : n = "debt_outstanding"
    · subst h10
      rfl
    by_cases h11 : n = "exchange_rate_used"
    · subst h11
      rfl
    rw [setField_eq_of_ne r v n h1 h2 h3 h4 h5 h6 h7 h8 h9 h10 h11]

theorem applyFields_val_gross_profit (e : FieldDict) :
    ∀ r : ReportingFinancials,
      (applyFields r e).gross_profit = applyVal "gross_profit" r.gross_profit e := by
  induction e with
  | nil => intro r; rfl
  | cons p t ih =>
    intro r
    have h1 : applyFields r (p :: t) = applyFields (setField r p.1 p.2) t := rfl
    have h2 : applyVal "gross_profit" r.gross_profit (p :: t) =
        applyVal "gross_profit" (if p.1 = "gross_profit" then p.2 else r.gross_profit) t := rfl
    rw [h1, h2, ih, setField_val_gross_profit]

theorem setField_val_sales_marketing_expense (r : ReportingFinancials) (n : String)
    (v : Option ℚ) :
    (setField r n v).sales_marketing_expense = if n = "sales_marketing_expense" then v else r.sales_marketing_expense := by
  by_cases hn : n = "sales_marketing_expense"
  · subst hn
    rw [if_pos rfl]
    rfl
  · rw [if_neg hn]
    by_cases h1 : n = "total_revenue"
    · subst h1
      rfl
    by_cases h2 : n = "recurring_revenue"
    · subst h2
      rfl
    by_cases h3 : n = "gross_profit"
    · subst h3
      rfl
    by_cases h4 : n = "sales_marketing_expense"
    · exact absurd h4 hn
    by_cases h5 : n = "total_operating_expense"
    · subst h5
      rfl
    by_cases h6 : n = "ebitda"
    · subst h6
      rfl
    by_cases h7 : n = "net_income"
    · subst h7
      rfl
    by_cases h8 : n = "cash_burn"
    · subst h8
      rfl
    by_cases h9 : n = "cash_balance"
    · subst h9
      rfl
    by_cases h10 : n = "debt_outstanding"
    · subst h10
      rfl
    by_cases h11 : n = "exchange_rate_used"
    · subst h11
      rfl
    rw [setField_eq_of_ne r v n h1 h2 h3 h4 h5 h6 h7 h8 h9 h10 h11]

theorem applyFields_val_sales_marketing_expense (e : FieldDict) :
    ∀ r : ReportingFinancials,
      (applyFields r e).sales_marketing_expense = applyVal "sales_marketing_expense" r.sales_marketing_expense e := by
  induction e with
  | nil => intro r; rfl
  | cons p t ih =>
    intro r
    have h1 : applyFields r (p :: t) = applyFields (setField r p.1 p.2) t := rfl
    have h2 : applyVal "sales_marketing_expense" r.sales_marketing_expense (p :: t) =
        applyVal "sales_marketing_expense" (if p.1 = "sales_marketing_expense" then p.2 else r.sales_marketing_expense) t := rfl
    rw [h1, h2, ih, setField_val_sales_marketing_expense]

theorem setField_val_total_operating_expense (r : ReportingFinancials) (n : String)
    (v : Option ℚ) :
    (setField r n v).total_operating_expense = if n = "total_operating_expense" then v else r.total_operating_expense := by
  by_cases hn : n = "total_operating_expense"
  · subst hn
    rw [if_pos rfl]
    rfl
  · rw [if_neg hn]
    by_cases h1 : n = "total_revenue"
    · subst h1
      rfl
    by_cases h2 : n = "recurring_revenue"
    · subst h2
      rfl
    by_cases h3 : n = "gross_profit"
    · subst h3
      rfl
    by_cases h4 : n = "sales_marketing_expense"
    · subst h4
      rfl
    by_cases h5 : n = "total_operating_expense"
    · exact absurd h5 hn
    by_cases h6 : n = "ebitda"
    · subst h6
      rfl
    by_cases h7 : n = "net_income"
    · subst h7
      rfl
    by_cases h8 : n = "cash_burn"
    · subst h8
      rfl
    by_cases h9 : n = "cash_balance"
    · subst h9
      rfl
    by_cases h10 : n = "debt_outstanding"
    · subst h10
      rfl
    by_cases h11 : n = "exchange_rate_used"
    · subst h11
      rfl
    rw [setField_eq_of_ne r v n h1 h2 h3 h4 h5 h6 h7 h8 h9 h10 h11]

theorem applyFields_val_total_operating_expense (e : FieldDict) :
    ∀ r : ReportingFinancials,
      (applyFields r e).total_operating_expense = applyVal "total_operating_expense" r.total_operating_expense e := by
  induction e with
  | nil => intro r; rfl
  | cons p t ih =>
    intro r
    have h1 : applyFields r (p :: t) = applyFields (setField r p.1 p.2) t := rfl
    have h2 : applyVal "total_operating_expense" r.total_operating_expense (p :: t) =
        applyVal "total_operating_expense" (if p.1 = "total_operating_expense" then p.2 else r.total_operating_expense) t := rfl
    rw [h1, h2, ih, setField_val_total_operating_expense]

theorem setField_val_ebitda (r : ReportingFinancials) (n : String)
    (v : Option ℚ) :
    (setField r n v).ebitda = if n = "ebitda" then v else r.ebitda := by
  by_cases hn : n = "ebitda"
  · subst hn
    rw [if_pos rfl]
    rfl
  · rw [if_neg hn]
    by_cases h1 : n = "total_revenue"
    · subst h1
      rfl
    by_cases h2 : n = "recurring_revenue"
    · subst h2
      rfl
    by_cases h3 : n = "gross_profit"
    · subst h3
      rfl
    by_cases h4 : n = "sales_marketing_expense"
    · subst h4
      rfl
    by_cases h5 : n = "total_operating_expense"
    · subst h5
      rfl
    by_cases h6 : n = "ebitda"
    · exact absurd h6 hn
    by_cases h7 : n = "net_income"
    · subst h7
      rfl
    by_cases h8 : n = "cash_burn"
    · subst h8
      rfl
    by_cases h9 : n = "cash_balance"
    · subst h9
      rfl
    by_cases h10 : n = "debt_outstanding"
    · subst h10
      rfl
    by_cases h11 : n = "exchange_rate_used"
    · subst h11
      rfl
    rw [setField_eq_of_ne r v n h1 h2 h3 h4 h5 h6 h7 h8 h9 h10 h11]

theorem applyFields_val_ebitda (e : FieldDict) :
    ∀ r : ReportingFinancials,
      (applyFields r e).ebitda = applyVal "ebitda" r.ebitda e := by
  induction e with
  | nil => intro r; rfl
  | cons p t ih =>
    intro r
    have h1 : applyFields r (p :: t) = applyFields (setField r p.1 p.2) t := rfl
    have h2 : applyVal "ebitda" r.ebitda (p :: t) =
        applyVal "ebitda" (if p.1 = "ebitda" then p.2 else r.ebitda) t := rfl
    rw [h1, h2, ih, setField_val_ebitda]

theorem setField_val_net_income (r : ReportingFinancials) (n : String)
    (v : Option ℚ) :
    (setField r n v).net_income = if n = "net_income" then v else r.net_income := by
  by_cases hn : n = "net_income"
  · subst hn
    rw [if_pos rfl]
    rfl
  · rw [if_neg hn]
    by_cases h1 : n = "total_revenue"
    · subst h1
      rfl
    by_cases h2 : n = "recurring_revenue"
    · subst h2
      rfl
    by_cases h3 : n = "gross_profit"
    · subst h3
      rfl
    by_cases h4 : n = "sales_marketing_expense"
    · subst h4
      rfl
    by_cases h5 : n = "total_operating_expense"
    · subst h5
      rfl
    by_cases h6 : n = "ebitda"
    · subst h6
      rfl
    by_cases h7 : n = "net_income"
    · exact absurd h7 hn
    by_cases h8 : n = "cash_burn"
    · subst h8
      rfl
    by_cases h9 : n = "cash_balance"
    · subst h9
      rfl
    by_cases h10 : n = "debt_outstanding"
    · subst h10
      rfl
    by_cases h11 : n = "exchange_rate_used"
    · subst h11
      rfl
    rw [setField_eq_of_ne r v n h1 h2 h3 h4 h5 h6 h7 h8 h9 h10 h11]

theorem applyFields_val_net_income (e : FieldDict) :
    ∀ r : ReportingFinancials,
      (applyFields r e).net_income = applyVal "net_income" r.net_income e := by
  induction e with
  | nil => intro r; rfl
  | cons p t ih =>
    intro r
    have h1 : applyFields r (p :: t) = applyFields (setField r p.1 p.2) t := rfl
    have h2 : applyVal "net_income" r.net_income (p :: t) =
        applyVal "net_income" (if p.1 = "net_income" then p.2 else r.net_income) t := rfl
    rw [h1, h2, ih, setField_val_net_income]

theorem setField_val_cash_burn (r : ReportingFinancials) (n : String)
    (v : Option ℚ) :
    (setField r n v).cash_burn = if n = "cash_burn" then v else r.cash_burn := by
  by_cases hn : n = "cash_burn"
  · subst hn
    rw [if_pos rfl]
    rfl
  · rw [if_neg hn]
    by_cases h1 : n = "total_revenue"
    · subst h1
      rfl
    by_cases h2 : n = "recurring_revenue"
    · subst h2
      rfl
    by_cases h3 : n = "gross_profit"
    · subst h3
      rfl
    by_cases h4 : n = "sales_marketing_expense"
    · subst h4
      rfl
    by_cases h5 : n = "total_operating_expense"
    · subst h5
      rfl
    by_cases h6 : n = "ebitda"
    · subst h6
      rfl
    by_cases h7 : n = "net_income"
    · subst h7
      rfl
    by_cases h8 : n = "cash_burn"
    · exact absurd h8 hn
    by_cases h9 : n = "cash_balance"
    · subst h9
      rfl
    by_cases h10 : n = "debt_outstanding"
    · subst h10
      rfl
    by_cases h11 : n = "exchange_rate_used"
    · subst h11
      rfl
    rw [setField_eq_of_ne r v n h1 h2 h3 h4 h5 h6 h7 h8 h9 h10 h11]

theorem applyFields_val_cash_burn (e : FieldDict) :
    ∀ r : ReportingFinancials,
      (applyFields r e).cash_burn = applyVal "cash_burn" r.cash_burn e := by
  induction e with
  | nil => intro r; rfl
  | cons p t ih =>
    intro r
    have h1 : applyFields r (p :: t) = applyFields (setField r p.1 p.2) t := rfl
    have h2 : applyVal "cash_burn" r.cash_burn (p :: t) =
        applyVal "cash_burn" (if p.1 = "cash_burn" then p.2 else r.cash_burn) t := rfl
    rw [h1, h2, ih, setField_val_cash_burn]

theorem setField_val_cash_balance (r : ReportingFinancials) (n : String)
    (v : Option ℚ) :
    (setField r n v).cash_balance = if n = "cash_balance" then v else r.cash_balance := by
  by_cases hn : n = "cash_balance"
  · subst hn
    rw [if_pos rfl]
    rfl
  · rw [if_neg hn]
    by_cases h1 : n = "total_revenue"
    · subst h1
      rfl
    by_cases h2 : n = "recurring_revenue"
    · subst h2
      rfl
    by_cases h3 : n = "gross_profit"
    · subst h3
      rfl
    by_cases h4 : n = "sales_marketing_expense"
    · subst h4
      rfl
    by_cases h5 : n = "total_operating_expense"
    · subst h5
      rfl
    by_cases h6 : n = "ebitda"
    · subst h6
      rfl
    by_cases h7 : n = "net_income"
    · subst h7
      rfl
    by_cases h8 : n = "cash_burn"
    · subst h8
      rfl
    by_cases h9 : n = "cash_balance"
    · exact absurd h9 hn
    by_cases h10 : n = "debt_outstanding"
    · subst h10
      rfl
    by_cases h11 : n = "exchange_rate_used"
    · subst h11
      rfl
    rw [setField_eq_of_ne r v n h1 h2 h3 h4 h5 h6 h7 h8 h9 h10 h11]

theorem applyFields_val_cash_balance (e : FieldDict) :
    ∀ r : ReportingFinancials,
      (applyFields r e).cash_balance = applyVal "cash_balance" r.cash_balance e := by
  induction e with
  | nil => intro r; rfl
  | cons p t ih =>
    intro r
    have h1 : applyFields r (p :: t) = applyFields (setField r p.1 p.2) t := rfl
    have h2 : applyVal "cash_balance" r.cash_balance (p :: t) =
        applyVal "cash_balance" (if p.1 = "cash_balance" then p.2 else r.cash_balance) t := rfl
    rw [h1, h2, ih, setField_val_cash_balance]

theorem setField_val_debt_outstanding (r : ReportingFinancials) (n : String)
    (v : Option ℚ) :
    (setField r n v).debt_outstanding = if n = "debt_outstanding" then v else r.debt_outstanding := by
  by_cases hn : n = "debt_outstanding"
  · subst hn
    rw [if_pos rfl]
    rfl
  · rw [if_neg hn]
    by_cases h1 : n = "total_revenue"
    · subst h1
      rfl
    by_cases h2 : n = "recurring_revenue"
    · subst h2
      rfl
    by_cases h3 : n = "gross_profit"
    · subst h3
      rfl
    by_cases h4 : n = "sales_marketing_expense"
    · subst h4
      rfl
    by_cases h5 : n = "total_operating_expense"
    · subst h5
      rfl
    by_cases h6 : n = "ebitda"
    · subst h6
      rfl
    by_cases h7 : n = "net_income"
    · subst h7
      rfl
    by_cases h8 : n = "cash_burn"
    · subst h8
      rfl
    by_cases h9 : n = "cash_balance"
    · subst h9
      rfl
    by_cases h10 : n = "debt_outstanding"
    · exact absurd h10 hn
    by_cases h11 : n = "exchange_rate_used"
    · subst h11
      rfl
    rw [setField_eq_of_ne r v n h1 h2 h3 h4 h5 h6 h7 h8 h9 h10 h11]

theorem applyFields_val_debt_outstanding (e : FieldDict) :
    ∀ r : ReportingFinancials,
      (applyFields r e).debt_outstanding = applyVal "debt_outstanding" r.debt_outstanding e := by
  induction e with
  | nil => intro r; rfl
  | cons p t ih =>
    intro r
    have h1 : applyFields r (p :: t) = applyFields (setField r p.1 p.2) t := rfl
    have h2 : applyVal "debt_outstanding" r.debt_outstanding (p :: t) =
        applyVal "debt_outstanding" (if p.1 = "debt_outstanding" then p.2 else r.debt_outstanding) t := rfl
    rw [h1, h2, ih, setField_val_debt_outstanding]

theorem setField_val_exchange_rate_used (r : ReportingFinancials) (n : String)
    (v : Option ℚ) :
    (setField r n v).exchange_rate_used = if n = "exchange_rate_used" then v else r.exchange_rate_used := by
  by_cases hn : n = "exchange_rate_used"
  · subst hn
    rw [if_pos rfl]
    rfl
  · rw [if_neg hn]
    by_cases h1 : n = "total_revenue"
    · subst h1
      rfl
    by_cases h2 : n = "recurring_revenue"
    · subst h2
      rfl
    by_cases h3 : n = "gross_profit"
    · subst h3
      rfl
    by_cases h4 : n = "sales_marketing_expense"
    · subst h4
      rfl
    by_cases h5 : n = "total_operating_expense"
    · subst h5
      rfl
    by_cases h6 : n = "ebitda"
    · subst h6
      rfl
    by_cases h7 : n = "net_income"
    · subst h7
      rfl
    by_cases h8 : n = "cash_burn"
    · subst h8
      rfl
    by_cases h9 : n = "cash_balance"
    · subst h9
      rfl
    by_cases h10 : n = "debt_outstanding"
    · subst h10
      rfl
    by_cases h11 : n = "exchange_rate_used"
    · exact absurd h11 hn
    rw [setField_eq_of_ne r v n h1 h2 h3 h4 h5 h6 h7 h8 h9 h10 h11]

theorem applyFields_val_exchange_rate_used (e : FieldDict) :
    ∀ r : ReportingFinancials,
      (applyFields r e).exchange_rate_used = applyVal "exchange_rate_used" r.exchange_rate_used e := by
  induction e with
  | nil => intro r; rfl
  | cons p t ih =>
    intro r
    have h1 : applyFields r (p :: t) = applyFields (setField r p.1 p.2) t := rfl
    have h2 : applyVal "exchange_rate_used" r.exchange_rate_used (p :: t) =
        applyVal "exchange_rate_used" (if p.1 = "exchange_rate_used" then p.2 else r.exchange_rate_used) t := rfl
    rw [h1, h2, ih, setField_val_exchange_rate_used]

theorem applyFields_frame (e : FieldDict) :
    ∀ r : ReportingFinancials,
      (applyFields r e).id = r.id ∧
      (applyFields r e).company_id = r.company_id ∧
      (applyFields r e).currency = r.currency ∧
      (applyFields r e).fiscal_reporting_date = r.fiscal_reporting_date ∧
      (applyFields r e).fiscal_reporting_quarter = r.fiscal_reporting_quarter ∧
      (applyFields r e).reporting_year = r.reporting_year ∧
      (applyFields r e).reporting_quarter = r.reporting_quarter ∧
      (applyFields r e).created_date = r.created_date ∧
      (applyFields r e).created_by = r.created_by ∧
      (applyFields r e).last_update_date = r.last_update_date ∧
      (applyFields r e).last_updated_by = r.last_updated_by := by
  induction e with
  | nil =>
    intro r
    exact ⟨rfl, rfl, rfl, rfl, rfl, rfl, rfl, rfl, rfl, rfl, rfl⟩
  | cons p t ih =>
    intro r
    obtain ⟨a1, a2, a3, a4, a5, a6, a7, a8, a9, a10, a11⟩ :=
      ih (setField r p.1 p.2)
    obtain ⟨b1, b2, b3, b4, b5, b6, b7, b8, b9, b10, b11⟩ :=
      setField_frame r p.1 p.2
    exact ⟨a1.trans b1, a2.trans b2, a3.trans b3, a4.trans b4, a5.trans b5,
      a6.trans b6, a7.trans b7, a8.trans b8, a9.trans b9, a10.trans b10,
      a11.trans b11⟩

theorem applyVal_dup (n : String) (e : FieldDict) :
    ∀ i, applyVal n (applyVal n i e) e = applyVal n i e := by
  induction e with
  | nil => intro i; rfl
  | cons p t ih =>
    intro i
    by_cases hp : p.1 = n
    · have h1 : ∀ j, applyVal n j (p :: t) = applyVal n p.2 t := by
        intro j
        show applyVal n (if p.1 = n then p.2 else j) t = applyVal n p.2 t
        rw [if_pos hp]
      rw [h1 i, h1 (applyVal n p.2 t)]
    · have h1 : ∀ j, applyVal n j (p :: t) = applyVal n j t := by
        intro j
        show applyVal n (if p.1 = n then p.2 else j) t = applyVal n j t
        rw [if_neg hp]
      rw [h1 i, h1 (applyVal n i t)]
      exact ih i

theorem applyFields_dup (r : ReportingFinancials) (e : FieldDict) :
    applyFields (applyFields r e) e = applyFields r e := by
  apply ReportingFinancials.ext
  · exact (applyFields_frame e (applyFields r e)).1
  · exact (applyFields_frame e (applyFields r e)).2.1
  · exact (applyFields_frame e (applyFields r e)).2.2.1
  · rw [applyFields_val_exchange_rate_used e (applyFields r e), applyFields_val_exchange_rate_used e r]
    exact applyVal_dup _ e _
  · rw [applyFields_val_total_revenue e (applyFields r e), applyFields_val_total_revenue e r]
    exact applyVal_dup _ e _
  · rw [applyFields_val_recurring_revenue e (applyFields r e), applyFields_val_recurring_revenue e r]
    exact applyVal_dup _ e _
  · rw [applyFields_val_gross_profit e (applyFields r e), applyFields_val_gross_profit e r]
    exact applyVal_dup _ e _
  · rw [applyFields_val_sales_marketing_expense e (applyFields r e), applyFields_val_sales_marketing_expense e r]
    exact applyVal_dup _ e _
  · rw [applyFields_val_total_operating_expense e (applyFields r e), applyFields_val_total_operating_expense e r]
    exact applyVal_dup _ e _
  · rw [applyFields_val_ebitda e (applyFields r e), applyFields_val_ebitda e r]
    exact applyVal_dup _ e _
  · rw [applyFields_val_net_income e (applyFields r e), applyFields_val_net_income e r]
    exact applyVal_dup _ e _
  · rw [applyFields_val_cash_burn e (applyFields r e), applyFields_val_cash_burn e r]
    exact applyVal_dup _ e _
  · rw [applyFields_val_cash_balance e (applyFields r e), applyFields_val_cash_balance e r]
    exact applyVal_dup _ e _
  · rw [applyFields_val_debt_outstanding e (applyFields r e), applyFields_val_debt_outstanding e r]
    exact applyVal_dup _ e _
  · exact (applyFields_frame e (applyFields r e)).2.2.2.1
  · exact (applyFields_frame e (applyFields r e)).2.2.2.2.1
  · exact (applyFields_frame e (applyFields r e)).2.2.2.2.2.1
  · exact (applyFields_frame e (applyFields r e)).2.2.2.2.2.2.1
  · exact (applyFields_frame e (applyFields r e)).2.2.2.2.2.2.2.1
  · exact (applyFields_frame e (applyFields r e)).2.2.2.2.2.2.2.2.1
  · exact (applyFields_frame e (applyFields r e)).2.2.2.2.2.2.2.2.2.1
  · exact (applyFields_frame e (applyFields r e)).2.2.2.2.2.2.2.2.2.2

theorem map_congr_fn {α β : Type} (l : List α) (f g : α → β)
    (h : ∀ a ∈ l, f a = g a) : l.map f = l.map g := by
  induction l with
  | nil => rfl
  | cons a t ih =>
    rw [List.map_cons, List.map_cons, h a (List.mem_cons_self _ _),
      ih fun b hb => h b (List.mem_cons_of_mem _ hb)]

theorem filter_congr_fn {α : Type} (l : List α) (p p' : α → Bool)
    (h : ∀ a ∈ l, p a = p' a) : l.filter p = l.filter p' := by
  induction l with
  | nil => rfl
  | cons a t ih =>
    rw [List.filter_cons, List.filter_cons, h a (List.mem_cons_self _ _),
      ih fun b hb => h b (List.mem_cons_of_mem _ hb)]

theorem filter_length_map {α : Type} (l : List α) (g : α → α) (p : α → Bool)
    (h : ∀ a, p (g a) = p a) :
    ((l.map g).filter p).length = (l.filter p).length := by
  induction l with
  | nil => rfl
  | cons a t ih =>
    rw [List.map_cons, List.filter_cons, List.filter_cons, h a]
    cases hp : p a with
    | false => simp [ih]
    | true => simp [ih]

theorem length_eq_one_exists {α : Type} (l : List α) (h : l.length = 1) :
    ∃ a, l = [a] := by
  cases l with
  | nil => cases h
  | cons a t =>
    cases t with
    | nil => exact ⟨a, rfl⟩
    | cons b t2 => simp only [List.length_cons] at h; omega

theorem keyMatch_applyFields (cid : ℕ) (c : Currency) (y q : ℤ)
    (r : ReportingFinancials) (e : FieldDict) :
    financialsKeyMatch cid c y q (applyFields r e) =
      financialsKeyMatch cid c y q r := by
  obtain ⟨_, h2, h3, _, _, h6, h7, _, _, _, _⟩ := applyFields_frame e r
  unfold financialsKeyMatch
  rw [h2, h3, h6, h7]

theorem financialsKey_applyFields (r : ReportingFinancials) (e : FieldDict) :
    financialsKey (applyFields r e) = financialsKey r := by
  obtain ⟨_, h2, h3, _, _, h6, h7, _, _, _, _⟩ := applyFields_frame e r
  unfold financialsKey
  rw [h2, h3, h6, h7]

theorem keyMatch_stepMap (cid : ℕ) (c : Currency) (y q : ℤ) (c' : Currency)
    (e : FieldDict) (r : ReportingFinancials) :
    financialsKeyMatch cid c' y q
      (if financialsKeyMatch cid c y q r then applyFields r e else r) =
      financialsKeyMatch cid c' y q r := by
  by_cases h : financialsKeyMatch cid c y q r = true
  · rw [if_pos h, keyMatch_applyFields]
  · rw [if_neg h]

theorem upsertStep_eq_of_single (db : List ReportingFinancials) (cid : ℕ)
    (y q : ℤ) (c : Currency) (e : FieldDict) (r1 : ReportingFinancials)
    (hf : db.filter (financialsKeyMatch cid c y q) = [r1]) :
    upsertStep db cid y q c e = .ok (db.map fun r =>
      if financialsKeyMatch cid c y q r then applyFields r e else r) := by
  unfold upsertStep
  rw [hf]

theorem upsertStep_eq_of_nil (db : List ReportingFinancials) (cid : ℕ)
    (y q : ℤ) (c : Currency) (e : FieldDict)
    (hf : db.filter (financialsKeyMatch cid c y q) = []) :
    upsertStep db cid y q c e =
      .error "TypeError: ReportingFinancials() missing required arguments" := by
  unfold upsertStep
  rw [hf]

theorem upsertStep_eq_of_multi (db : List ReportingFinancials) (cid : ℕ)
    (y q : ℤ) (c : Currency) (e : FieldDict) (r1 r2 : ReportingFinancials)
    (tl : List ReportingFinancials)
    (hf : db.filter (financialsKeyMatch cid c y q) = r1 :: r2 :: tl) :
    upsertStep db cid y q c e = .error "MultipleResultsFound" := by
  unfold upsertStep
  rw [hf]

theorem updAll_cons_eq (cid : ℕ) (y q : ℤ) (db : List ReportingFinancials)
    (c : Currency) (e : FieldDict) (rest : List (Currency × FieldDict))
    (db₁ : List ReportingFinancials)
    (hstep : upsertStep db cid y q c e = .ok db₁) :
    update_reporting_financials cid y q db ((c, e) :: rest) =
      update_reporting_financials cid y q db₁ rest := by
  simp only [update_reporting_financials]
  rw [hstep]

theorem updAll_cons_eq_err (cid : ℕ) (y q : ℤ) (db : List ReportingFinancials)
    (c : Currency) (e : FieldDict) (rest : List (Currency × FieldDict))
    (msg : String) (hstep : upsertStep db cid y q c e = .error msg) :
    update_reporting_financials cid y q db ((c, e) :: rest) = .error msg := by
  simp only [update_reporting_financials]
  rw [hstep]

theorem recDicts_cons (cid : ℕ) (y q : ℤ) (c : Currency) (e : FieldDict)
    (rest : List (Currency × FieldDict)) (r : ReportingFinancials) :
    recDicts cid y q ((c, e) :: rest) r =
      (if financialsKeyMatch cid c y q r then e else []) ++
        recDicts cid y q rest r := by
  unfold recDicts
  cases hm : financialsKeyMatch cid c y q r with
  | true => simp [List.filter_cons, hm]
  | false => simp [List.filter_cons, hm]

theorem recDicts_congr (cid : ℕ) (y q : ℤ)
    (conv : List (Currency × FieldDict)) (r' r : ReportingFinancials)
    (h : ∀ c', financialsKeyMatch cid c' y q r' =
      financialsKeyMatch cid c' y q r) :
    recDicts cid y q conv r' = recDicts cid y q conv r := by
  unfold recDicts
  rw [filter_congr_fn conv _ _ fun p _ => h p.1]

theorem applyFields_append (r : ReportingFinancials) (d₁ d₂ : FieldDict) :
    applyFields r (d₁ ++ d₂) = applyFields (applyFields r d₁) d₂ := by
  unfold applyFields
  rw [List.foldl_append]

theorem updAll_counts (cid : ℕ) (y q : ℤ) :
    ∀ (conv : List (Currency × FieldDict)) (db db' : List ReportingFinancials),
      update_reporting_financials cid y q db conv = .ok db' →
      ∀ p ∈ conv, (db.filter (financialsKeyMatch cid p.1 y q)).length = 1 := by
  intro conv
  induction conv with
  | nil => intro db db' _ p hp; exact absurd hp (List.not_mem_nil p)
  | cons pe rest ih =>
    intro db db' h p hp
    obtain ⟨c, e⟩ := pe
    cases hf : db.filter (financialsKeyMatch cid c y q) with
    | nil =>
      rw [updAll_cons_eq_err cid y q db c e rest _
        (upsertStep_eq_of_nil db cid y q c e hf)] at h
      cases h
    | cons r1 tl =>
      cases tl with
      | cons r2 tl2 =>
        rw [updAll_cons_eq_err cid y q db c e rest _
          (upsertStep_eq_of_multi db cid y q c e r1 r2 tl2 hf)] at h
        cases h
      | nil =>
        have hstep := upsertStep_eq_of_single db cid y q c e r1 hf
        rw [updAll_cons_eq cid y q db c e rest _ hstep] at h
        rcases List.mem_cons.mp hp with heq | hp'
        · subst heq
          show (db.filter (financialsKeyMatch cid c y q)).length = 1
          rw [hf]
          rfl
        · have hlen := ih _ _ h p hp'
          rw [filter_length_map db _ _
            fun r => keyMatch_stepMap cid c y q p.1 e r] at hlen
          exact hlen

theorem updAll_normal (cid : ℕ) (y q : ℤ) :
    ∀ (conv : List (Currency × FieldDict)) (db : List ReportingFinancials),
      (∀ p ∈ conv, (db.filter (financialsKeyMatch cid p.1 y q)).length = 1) →
      update_reporting_financials cid y q db conv =
        .ok (db.map fun r => applyFields r (recDicts cid y q conv r)) := by
  intro conv
  induction conv with
  | nil =>
    intro db _
    simp only [update_reporting_financials]
    have hid : ∀ r : ReportingFinancials,
        applyFields r (recDicts cid y q [] r) = r := fun r => rfl
    rw [map_congr_fn db _ id fun a _ => hid a, List.map_id]
  | cons pe rest ih =>
    intro db hcnt
    obtain ⟨c, e⟩ := pe
    obtain ⟨r1, hf⟩ :=
      length_eq_one_exists _ (hcnt (c, e) (List.mem_cons_self _ _))
    have hstep := upsertStep_eq_of_single db cid y q c e r1 hf
    rw [updAll_cons_eq cid y q db c e rest _ hstep]
    have hcnt' : ∀ p ∈ rest,
        (((db.map fun r =>
          if financialsKeyMatch cid c y q r then applyFields r e else r).filter
            (financialsKeyMatch cid p.1 y q)).length = 1) := by
      intro p hp
      rw [filter_length_map db _ _ fun r => keyMatch_stepMap cid c y q p.1 e r]
      exact hcnt p (List.mem_cons_of_mem _ hp)
    rw [ih _ hcnt']
    congr 1
    rw [List.map_map]
    apply map_congr_fn
    intro r _
    show applyFields
        (if financialsKeyMatch cid c y q r then applyFields r e else r)
        (recDicts cid y q rest
          (if financialsKeyMatch cid c y q r then applyFields r e else r)) =
      applyFields r (recDicts cid y q ((c, e) :: rest) r)
    by_cases hm : financialsKeyMatch cid c y q r = true
    · rw [if_pos hm,
        recDicts_congr cid y q rest _ r
          fun c' => keyMatch_applyFields cid c' y q r e,
        recDicts_cons, if_pos hm, applyFields_append]
    · rw [if_neg hm, recDicts_cons, if_neg hm, List.nil_append]

/-- C9: re-running the upsert of the transformation for the same period with
the same fan-out result is idempotent on the persisted table: the update
branch finds the existing row per (company, currency, year, quarter) and
overwrites it in place, so the state after the second run equals the state
after the first; moreover a run never adds, removes or re-keys rows, so no
duplicate rows can appear. -/
theorem upsert_idempotent :
    ∀ (db : List ReportingFinancials) (cid : ℕ) (y q : ℤ)
      (conv : List (Currency × FieldDict)),
      upsertRun (upsertRun db cid y q conv) cid y q conv =
        upsertRun db cid y q conv ∧
      (upsertRun db cid y q conv).map financialsKey = db.map financialsKey := by
  intro db cid y q conv
  cases hr : update_reporting_financials cid y q db conv with
  | error msg =>
    have hEq : upsertRun db cid y q conv = db := by
      unfold upsertRun
      rw [hr]
    constructor
    · rw [hEq]
      exact hEq
    · rw [hEq]
  | ok db' =>
    have hcnt := updAll_counts cid y q conv db db' hr
    have hnf := updAll_normal cid y q conv db hcnt
    have hEq : upsertRun db cid y q conv =
        db.map fun r => applyFields r (recDicts cid y q conv r) := by
      unfold upsertRun
      rw [hnf]
    constructor
    · rw [hEq]
      have hcnt2 : ∀ p ∈ conv,
          (((db.map fun r =>
            applyFields r (recDicts cid y q conv r)).filter
              (financialsKeyMatch cid p.1 y q)).length = 1) := by
        intro p hp
        rw [filter_length_map db _ _
          fun r => keyMatch_applyFields cid p.1 y q r _]
        exact hcnt p hp
      have hnf2 := updAll_normal cid y q conv _ hcnt2
      unfold upsertRun
      rw [hnf2, List.map_map]
      apply map_congr_fn
      intro r _
      show applyFields (applyFields r (recDicts cid y q conv r))
          (recDicts cid y q conv
            (applyFields r (recDicts cid y q conv r))) =
        applyFields r (recDicts cid y q conv r)
      rw [recDicts_congr cid y q conv _ r
        fun c' => keyMatch_applyFields cid c' y q r _]
      exact applyFields_dup r _
    · rw [hEq, List.map_map]
      exact map_congr_fn db _ _ fun r _ => financialsKey_applyFields r _

/-- C10: the update branch of the upsert assigns only the converted monetary
fields and exchange_rate_used carried in the fan-out dict; the row's key
columns and every other column, including the update timestamp and author
columns, are left unchanged by the setattr loop. -/
theorem update_path_frame :
    ∀ (r : ReportingFinancials) (e : FieldDict),
      (applyFields r e).id = r.id ∧
      (applyFields r e).company_id = r.company_id ∧
      (applyFields r e).currency = r.currency ∧
      (applyFields r e).reporting_year = r.reporting_year ∧
      (applyFields r e).reporting_quarter = r.reporting_quarter ∧
      (applyFields r e).fiscal_reporting_date = r.fiscal_reporting_date ∧
      (applyFields r e).fiscal_reporting_quarter =
        r.fiscal_reporting_quarter ∧
      (applyFields r e).created_date = r.created_date ∧
      (applyFields r e).created_by = r.created_by ∧
      (applyFields r e).last_update_date = r.last_update_date ∧
      (applyFields r e).last_updated_by = r.last_updated_by := by
  intro r e
  obtain ⟨f1, f2, f3, f4, f5, f6, f7, f8, f9, f10, f11⟩ :=
    applyFields_frame e r
  exact ⟨f1, f2, f3, f6, f7, f4, f5, f8, f9, f10, f11⟩

end OmersVC
